import Mathlib

/-!
# x402 payment protocol: wire codec and role algorithms, verified

A shallow embedding of the x402 protocol core: base64 framing, UTF-8,
JSON serialization and parsing (including the HTML-safe variant), header
codecs for `PaymentRequired` / `PaymentPayload` / `SettleResponse`,
version detection, the mechanism registry lookup, the client payload
construction, the resource server's requirement matching and
initialization guard, and the EVM / SVM `exact` facilitator verify
pipelines.

The repository ships the implementation as a Python package whose test
suite, examples and end-to-end harnesses are present here; the package
modules themselves are not.  Every operation below is therefore modelled
from the specification document (its section is cited at each
definition), with the test suite used to fix orderings and concrete
tokens the spec leaves open.
-/

namespace X402

/-! ## Decimal digits

Decimal rendering and reading of natural numbers, the base of both JSON
number serialization and the protocol's "amounts are decimal integer
strings, compared as unbounded integers" rule (spec section 4.2). -/

/-- The character for one decimal digit value (`0`-`9`). -/
def digitChar : Nat → Char
  | 0 => '0' | 1 => '1' | 2 => '2' | 3 => '3' | 4 => '4'
  | 5 => '5' | 6 => '6' | 7 => '7' | 8 => '8' | _ => '9'

/-- The value of one decimal digit character. -/
def digitVal (c : Char) : Nat := c.toNat - 48

/-- Is `c` one of `0`-`9`? -/
def isDigitCh (c : Char) : Bool := 48 ≤ c.toNat && c.toNat ≤ 57

/-- Decimal digits of `n`, most significant first. -/
def natDigits (n : Nat) : List Char :=
  if _h : n < 10 then [digitChar n]
  else natDigits (n / 10) ++ [digitChar (n % 10)]
  decreasing_by exact Nat.div_lt_self (by omega) (by omega)

/-- Value of a digit string, most significant first. -/
def digitsVal (l : List Char) : Nat := l.foldl (fun a c => a * 10 + digitVal c) 0

theorem digitChar_toNat {n : Nat} (h : n < 10) : (digitChar n).toNat = 48 + n := by
  interval_cases n <;> rfl

theorem digitVal_digitChar {n : Nat} (h : n < 10) : digitVal (digitChar n) = n := by
  simp [digitVal, digitChar_toNat h]

theorem isDigitCh_digitChar {n : Nat} (h : n < 10) : isDigitCh (digitChar n) = true := by
  simp [isDigitCh, digitChar_toNat h]; omega

theorem natDigits_ne_nil (n : Nat) : natDigits n ≠ [] := by
  unfold natDigits
  split <;> simp

theorem natDigits_all_digits (n : Nat) : ∀ c ∈ natDigits n, isDigitCh c = true := by
  induction n using Nat.strong_induction_on with
  | _ n ih =>
    unfold natDigits
    split
    · next h => simp [isDigitCh_digitChar h]
    · next h =>
      intro c hc
      rcases List.mem_append.mp hc with h1 | h2
      · exact ih (n / 10) (Nat.div_lt_self (by omega) (by omega)) c h1
      · simp only [List.mem_singleton] at h2
        subst h2
        exact isDigitCh_digitChar (Nat.mod_lt _ (by omega))

theorem digitsVal_append_singleton (l : List Char) (c : Char) :
    digitsVal (l ++ [c]) = digitsVal l * 10 + digitVal c := by
  simp [digitsVal, List.foldl_append]

theorem digitsVal_natDigits (n : Nat) : digitsVal (natDigits n) = n := by
  induction n using Nat.strong_induction_on with
  | _ n ih =>
    unfold natDigits
    split
    · next h => simp [digitsVal, digitVal_digitChar h]
    · next h =>
      rw [digitsVal_append_singleton,
        ih (n / 10) (Nat.div_lt_self (by omega) (by omega)),
        digitVal_digitChar (Nat.mod_lt _ (by omega))]
      omega

/-- Split the longest leading run of decimal digits from a character list. -/
def splitDigits (l : List Char) : List Char × List Char :=
  (l.takeWhile isDigitCh, l.dropWhile isDigitCh)

theorem splitDigits_spec (ds rest : List Char)
    (hds : ∀ c ∈ ds, isDigitCh c = true)
    (hrest : ∀ c ∈ rest.head?, isDigitCh c = false) :
    splitDigits (ds ++ rest) = (ds, rest) := by
  unfold splitDigits
  simp only [Prod.mk.injEq]
  constructor
  · induction ds with
    | nil =>
      cases rest with
      | nil => rfl
      | cons c r => simp [List.takeWhile, hrest c rfl]
    | cons c ds ih =>
      simp only [List.cons_append, List.takeWhile]
      rw [hds c (by simp)]
      simp only [List.cons.injEq, true_and]
      exact ih (fun c hc => hds c (by simp [hc]))
  · induction ds with
    | nil =>
      cases rest with
      | nil => rfl
      | cons c r => simp [List.dropWhile, hrest c rfl]
    | cons c ds ih =>
      simp only [List.cons_append, List.dropWhile]
      rw [hds c (by simp)]
      exact ih (fun c hc => hds c (by simp [hc]))

/-- Read a whole character list as a decimal natural number
(the unbounded-integer reading of amount strings, spec section 4.2). -/
def decStrToNat (l : List Char) : Option Nat :=
  if l ≠ [] ∧ ∀ c ∈ l, isDigitCh c = true then some (digitsVal l) else none

theorem decStrToNat_natDigits (n : Nat) : decStrToNat (natDigits n) = some n := by
  rw [decStrToNat, if_pos ⟨natDigits_ne_nil n, natDigits_all_digits n⟩,
    digitsVal_natDigits]

/-! ## UTF-8

Modelled from the spec: the wire framing is `base64(utf8(json(value)))`
(spec sections 4.1 and 6); the Python package's `x402.http.utils` module,
which performs the UTF-8 step with the standard library, is not under
`src/`.  Bytes are `Nat`s below `256`; characters are Lean `Char`s
(Unicode scalar values). -/

/-- UTF-8 bytes of one code point `n < 0x110000`. -/
def utf8EncodeCp (n : Nat) : List Nat :=
  if n < 0x80 then [n]
  else if n < 0x800 then [0xC0 + n / 64, 0x80 + n % 64]
  else if n < 0x10000 then [0xE0 + n / 4096, 0x80 + n / 64 % 64, 0x80 + n % 64]
  else [0xF0 + n / 262144, 0x80 + n / 4096 % 64, 0x80 + n / 64 % 64, 0x80 + n % 64]

/-- Is `b` a UTF-8 continuation byte? -/
def isCont (b : Nat) : Bool := 0x80 ≤ b && b < 0xC0

mutual

/-- Decode a UTF-8 byte list to its code points; `none` on malformed input.
`utf8DecodeTail2/3/4` consume the continuation bytes of a 2-, 3- or 4-byte
sequence whose leading byte is `b`. -/
def utf8Decode : (bs : List Nat) → Option (List Nat)
  | [] => some []
  | b :: rest =>
    if b < 0x80 then (utf8Decode rest).map (b :: ·)
    else if b < 0xC0 then none
    else if b < 0xE0 then utf8DecodeTail2 b rest
    else if b < 0xF0 then utf8DecodeTail3 b rest
    else if b < 0xF8 then utf8DecodeTail4 b rest
    else none
  termination_by bs => bs.length

def utf8DecodeTail2 (b : Nat) : (bs : List Nat) → Option (List Nat)
  | b1 :: r =>
    if isCont b1 then (utf8Decode r).map (((b - 0xC0) * 64 + (b1 - 0x80)) :: ·)
    else none
  | [] => none
  termination_by bs => bs.length

def utf8DecodeTail3 (b : Nat) : (bs : List Nat) → Option (List Nat)
  | b1 :: b2 :: r =>
    if isCont b1 && isCont b2 then
      (utf8Decode r).map (((b - 0xE0) * 4096 + (b1 - 0x80) * 64 + (b2 - 0x80)) :: ·)
    else none
  | _ => none
  termination_by bs => bs.length

def utf8DecodeTail4 (b : Nat) : (bs : List Nat) → Option (List Nat)
  | b1 :: b2 :: b3 :: r =>
    if isCont b1 && isCont b2 && isCont b3 then
      (utf8Decode r).map
        (((b - 0xF0) * 262144 + (b1 - 0x80) * 4096 + (b2 - 0x80) * 64 + (b3 - 0x80)) :: ·)
    else none
  | _ => none
  termination_by bs => bs.length

end

theorem utf8EncodeCp_lt (n : Nat) (h : n < 0x110000) : ∀ b ∈ utf8EncodeCp n, b < 256 := by
  unfold utf8EncodeCp
  split
  · intro b hb
    simp only [List.mem_singleton] at hb
    omega
  · split
    · intro b hb
      simp only [List.mem_cons, List.mem_singleton, List.not_mem_nil, or_false] at hb
      rcases hb with h1 | h1 <;> omega
    · split
      · intro b hb
        simp only [List.mem_cons, List.mem_singleton, List.not_mem_nil, or_false] at hb
        rcases hb with h1 | h1 | h1 <;> omega
      · intro b hb
        simp only [List.mem_cons, List.mem_singleton, List.not_mem_nil, or_false] at hb
        rcases hb with h1 | h1 | h1 | h1 <;> omega

theorem utf8Decode_encode_cons (n : Nat) (h : n < 0x110000) (bs : List Nat) :
    utf8Decode (utf8EncodeCp n ++ bs) = (utf8Decode bs).map (n :: ·) := by
  unfold utf8EncodeCp
  by_cases h1 : n < 0x80
  · simp only [if_pos h1, List.cons_append, List.nil_append]
    rw [utf8Decode, if_pos h1]
  · by_cases h2 : n < 0x800
    · simp only [if_neg h1, if_pos h2, List.cons_append, List.nil_append]
      rw [utf8Decode]
      rw [if_neg (by omega), if_neg (by omega), if_pos (by omega)]
      rw [utf8DecodeTail2]
      have hc : isCont (0x80 + n % 64) = true := by
        simp only [isCont, Bool.and_eq_true, decide_eq_true_eq]
        omega
      rw [if_pos hc]
      have : (0xC0 + n / 64 - 0xC0) * 64 + (0x80 + n % 64 - 0x80) = n := by omega
      rw [this]
    · by_cases h3 : n < 0x10000
      · simp only [if_neg h1, if_neg h2, if_pos h3, List.cons_append, List.nil_append]
        rw [utf8Decode]
        rw [if_neg (by omega), if_neg (by omega), if_neg (by omega), if_pos (by omega)]
        rw [utf8DecodeTail3]
        have hc1 : isCont (0x80 + n / 64 % 64) = true := by
          simp only [isCont, Bool.and_eq_true, decide_eq_true_eq]
          omega
        have hc2 : isCont (0x80 + n % 64) = true := by
          simp only [isCont, Bool.and_eq_true, decide_eq_true_eq]
          omega
        rw [hc1, hc2]
        simp only [Bool.and_self, if_true]
        have : (0xE0 + n / 4096 - 0xE0) * 4096 + (0x80 + n / 64 % 64 - 0x80) * 64 +
            (0x80 + n % 64 - 0x80) = n := by omega
        rw [this]
      · simp only [if_neg h1, if_neg h2, if_neg h3, List.cons_append, List.nil_append]
        rw [utf8Decode]
        rw [if_neg (by omega), if_neg (by omega), if_neg (by omega), if_neg (by omega),
          if_pos (by omega)]
        rw [utf8DecodeTail4]
        have hc1 : isCont (0x80 + n / 4096 % 64) = true := by
          simp only [isCont, Bool.and_eq_true, decide_eq_true_eq]
          omega
        have hc2 : isCont (0x80 + n / 64 % 64) = true := by
          simp only [isCont, Bool.and_eq_true, decide_eq_true_eq]
          omega
        have hc3 : isCont (0x80 + n % 64) = true := by
          simp only [isCont, Bool.and_eq_true, decide_eq_true_eq]
          omega
        rw [hc1, hc2, hc3]
        simp only [Bool.and_self, if_true]
        have : (0xF0 + n / 262144 - 0xF0) * 262144 + (0x80 + n / 4096 % 64 - 0x80) * 4096 +
            (0x80 + n / 64 % 64 - 0x80) * 64 + (0x80 + n % 64 - 0x80) = n := by omega
        rw [this]

/-- UTF-8 bytes of a character list. -/
def strToUtf8 (cs : List Char) : List Nat := (cs.map (fun c => utf8EncodeCp c.toNat)).flatten

/-- Decode UTF-8 bytes back to a character list. -/
def utf8ToStr (bs : List Nat) : Option (List Char) :=
  (utf8Decode bs).map (·.map Char.ofNat)

theorem char_toNat_lt (c : Char) : c.toNat < 0x110000 := by
  rcases c.valid with h | ⟨h1, h2⟩
  · exact Nat.lt_trans h (by decide)
  · exact h2

theorem utf8Decode_strToUtf8 (cs : List Char) :
    utf8Decode (strToUtf8 cs) = some (cs.map Char.toNat) := by
  induction cs with
  | nil =>
    simp only [strToUtf8, List.map_nil, List.flatten_nil]
    rw [utf8Decode]
  | cons c cs ih =>
    simp only [strToUtf8, List.map_cons, List.flatten_cons]
    rw [utf8Decode_encode_cons c.toNat (char_toNat_lt c)]
    simp only [strToUtf8] at ih
    rw [ih]
    simp

theorem utf8ToStr_strToUtf8 (cs : List Char) : utf8ToStr (strToUtf8 cs) = some cs := by
  rw [utf8ToStr, utf8Decode_strToUtf8]
  simp [List.map_map, Function.comp_def, Char.ofNat_toNat]

theorem strToUtf8_lt (cs : List Char) : ∀ b ∈ strToUtf8 cs, b < 256 := by
  intro b hb
  simp only [strToUtf8, List.mem_flatten, List.mem_map] at hb
  obtain ⟨l, ⟨c, _, rfl⟩, hbl⟩ := hb
  exact utf8EncodeCp_lt c.toNat (char_toNat_lt c) b hbl

/-! ## Base64

Modelled from the spec: header values are `base64(utf8(json(value)))`
with the standard alphabet, no line wrapping, padded on emit, unpadded
accepted on decode (spec sections 4.1 and 6); the Python implementation
(`safe_base64_encode` / `safe_base64_decode` in `x402.http.utils`) is not
under `src/`. -/

/-- The standard base64 alphabet. -/
def b64Alphabet : List Char :=
  "ABCDEFGHIJKLMNOPQRSTUVWXYZabcdefghijklmnopqrstuvwxyz0123456789+/".toList

/-- The alphabet character of a sextet value. -/
def b64Char (n : Nat) : Char := b64Alphabet.getD n 'A'

/-- The sextet value of an alphabet character; `none` outside the alphabet. -/
def b64Val (c : Char) : Option Nat := b64Alphabet.findIdx? (· = c)

/-- Encode a byte list in base64, three bytes to four characters, padding
the final partial block with `=`. -/
def b64Encode : List Nat → List Char
  | [] => []
  | [b0] => [b64Char (b0 / 4), b64Char (b0 % 4 * 16), '=', '=']
  | [b0, b1] => [b64Char (b0 / 4), b64Char (b0 % 4 * 16 + b1 / 16), b64Char (b1 % 16 * 4), '=']
  | b0 :: b1 :: b2 :: rest =>
    b64Char (b0 / 4) :: b64Char (b0 % 4 * 16 + b1 / 16) ::
      b64Char (b1 % 16 * 4 + b2 / 64) :: b64Char (b2 % 64) :: b64Encode rest

/-- Decode one final four-character block, honouring `=` padding. -/
def b64DecodeBlock (c0 c1 c2 c3 : Char) : Option (List Nat) :=
  if c3 = '=' then
    if c2 = '=' then do
      let v0 ← b64Val c0
      let v1 ← b64Val c1
      some [v0 * 4 + v1 / 16]
    else do
      let v0 ← b64Val c0
      let v1 ← b64Val c1
      let v2 ← b64Val c2
      some [v0 * 4 + v1 / 16, v1 % 16 * 16 + v2 / 4]
  else do
    let v0 ← b64Val c0
    let v1 ← b64Val c1
    let v2 ← b64Val c2
    let v3 ← b64Val c3
    some [v0 * 4 + v1 / 16, v1 % 16 * 16 + v2 / 4, v2 % 4 * 64 + v3]

/-- Decode a base64 character list; unpadded final blocks are accepted. -/
def b64Decode : List Char → Option (List Nat)
  | [] => some []
  | [c0, c1] => b64DecodeBlock c0 c1 '=' '='
  | [c0, c1, c2] => b64DecodeBlock c0 c1 c2 '='
  | c0 :: c1 :: c2 :: c3 :: rest =>
    if rest.isEmpty then b64DecodeBlock c0 c1 c2 c3
    else do
      let v0 ← b64Val c0
      let v1 ← b64Val c1
      let v2 ← b64Val c2
      let v3 ← b64Val c3
      (b64Decode rest).map
        (fun tl => (v0 * 4 + v1 / 16) :: (v1 % 16 * 16 + v2 / 4) :: (v2 % 4 * 64 + v3) :: tl)
  | _ => none

theorem b64Val_b64Char : ∀ n < 64, b64Val (b64Char n) = some n := by decide

theorem b64Char_ne_pad : ∀ n < 64, b64Char n ≠ '=' := by decide

theorem b64Encode_ne_nil (b : Nat) (bs : List Nat) : b64Encode (b :: bs) ≠ [] := by
  match bs with
  | [] => rw [b64Encode]; simp
  | [b1] => rw [b64Encode]; simp
  | b1 :: b2 :: rest => rw [b64Encode]; simp

theorem b64Decode_b64Encode : ∀ bs : List Nat, (∀ b ∈ bs, b < 256) →
    b64Decode (b64Encode bs) = some bs
  | [], _ => by rw [b64Encode, b64Decode]
  | [b0], h => by
    have hb0 : b0 < 256 := h b0 (by simp)
    rw [b64Encode, b64Decode]
    simp only [List.isEmpty_nil, if_true]
    rw [b64DecodeBlock, if_pos rfl, if_pos rfl]
    rw [b64Val_b64Char _ (by omega), b64Val_b64Char _ (by omega)]
    simp only [Option.bind_eq_bind, Option.some_bind, Option.some.injEq, List.cons.injEq, and_true]
    omega
  | [b0, b1], h => by
    have hb0 : b0 < 256 := h b0 (by simp)
    have hb1 : b1 < 256 := h b1 (by simp)
    rw [b64Encode, b64Decode]
    simp only [List.isEmpty_nil, if_true]
    rw [b64DecodeBlock, if_pos rfl, if_neg (b64Char_ne_pad _ (by omega))]
    rw [b64Val_b64Char _ (by omega), b64Val_b64Char _ (by omega),
      b64Val_b64Char _ (by omega)]
    simp only [Option.bind_eq_bind, Option.some_bind, Option.some.injEq, List.cons.injEq, and_true]
    constructor
    · omega
    · omega
  | b0 :: b1 :: b2 :: rest, h => by
    have hb0 : b0 < 256 := h b0 (by simp)
    have hb1 : b1 < 256 := h b1 (by simp)
    have hb2 : b2 < 256 := h b2 (by simp)
    rw [b64Encode]
    match rest with
    | [] =>
      rw [b64Encode, b64Decode]
      simp only [List.isEmpty_nil, if_true]
      rw [b64DecodeBlock, if_neg (b64Char_ne_pad _ (by omega))]
      rw [b64Val_b64Char _ (by omega), b64Val_b64Char _ (by omega),
        b64Val_b64Char _ (by omega), b64Val_b64Char _ (by omega)]
      simp only [Option.bind_eq_bind, Option.some_bind, Option.some.injEq, List.cons.injEq, and_true]
      refine ⟨by omega, by omega, by omega⟩
    | r :: rs =>
      have ih := b64Decode_b64Encode (r :: rs) (fun b hb => h b (by simp [hb]))
      rw [b64Decode]
      have hne : (b64Encode (r :: rs)).isEmpty = false := by
        cases hE : b64Encode (r :: rs) with
        | nil => exact absurd hE (b64Encode_ne_nil r rs)
        | cons x xs => rfl
      rw [hne]
      simp only [Bool.false_eq_true, if_false]
      rw [b64Val_b64Char _ (by omega), b64Val_b64Char _ (by omega),
        b64Val_b64Char _ (by omega), b64Val_b64Char _ (by omega)]
      simp only [Option.bind_eq_bind, Option.some_bind]
      rw [ih]
      simp only [Option.map_some', Option.some.injEq, List.cons.injEq]
      refine ⟨by omega, by omega, by omega, trivial⟩

/-! ## JSON values

Modelled from the spec: payloads, requirements and responses travel as
JSON (spec sections 4.1 and 4.2).  The Python implementation serializes
with the standard `json` module plus an explicit HTML-safe variant
(`htmlsafe_json_dumps`); neither module is under `src/`.  Numbers are
integers (all monetary quantities are decimal *strings* on the wire,
spec section 4.2); strings are character lists. -/

/-- Character list of a string literal. -/
def chs (s : String) : List Char := s.toList

mutual

/-- A JSON value. -/
inductive Json
  | null : Json
  | bool (b : Bool) : Json
  | num (n : Int) : Json
  | str (s : List Char) : Json
  | arr (xs : JsonList) : Json
  | obj (kvs : JsonMembers) : Json
  deriving DecidableEq

/-- The elements of a JSON array. -/
inductive JsonList
  | nil : JsonList
  | cons (hd : Json) (tl : JsonList) : JsonList
  deriving DecidableEq

/-- The key-value members of a JSON object, in serialization order. -/
inductive JsonMembers
  | nil : JsonMembers
  | cons (k : List Char) (v : Json) (tl : JsonMembers) : JsonMembers
  deriving DecidableEq

end

mutual

/-- Structural size of a JSON value, used as the parser fuel bound. -/
def sizeV : Json → Nat
  | .null | .bool _ | .num _ | .str _ => 1
  | .arr xs => 1 + sizeL xs
  | .obj kvs => 1 + sizeM kvs

/-- Structural size of array elements. -/
def sizeL : JsonList → Nat
  | .nil => 1
  | .cons x t => 1 + sizeV x + sizeL t

/-- Structural size of object members. -/
def sizeM : JsonMembers → Nat
  | .nil => 1
  | .cons _ v t => 1 + sizeV v + sizeM t

end

/-- Serialize one string character.  JSON escapes for the quote, the
backslash and the common control characters; when `esc` is set the
HTML-special `<`, `>`, `&` are emitted as the six-character escape
sequences `\\u003C`, `\\u003E`, `\\u0026` (spec section 4.1: HTML-safe
JSON).  Everything else, all non-ASCII
characters included, passes through unchanged. -/
def escChar (esc : Bool) (c : Char) : List Char :=
  if c = '"' then ['\\', '"']
  else if c = '\\' then ['\\', '\\']
  else if c = '\n' then ['\\', 'n']
  else if c = '\t' then ['\\', 't']
  else if c = '\r' then ['\\', 'r']
  else if esc = true ∧ c = '<' then ['\\', 'u', '0', '0', '3', 'C']
  else if esc = true ∧ c = '>' then ['\\', 'u', '0', '0', '3', 'E']
  else if esc = true ∧ c = '&' then ['\\', 'u', '0', '0', '2', '6']
  else [c]

/-- Serialized body of a JSON string (without the enclosing quotes). -/
def escBody (esc : Bool) (s : List Char) : List Char := (s.map (escChar esc)).flatten

/-- Decimal serialization of a JSON integer. -/
def intDumps (i : Int) : List Char :=
  if i < 0 then '-' :: natDigits i.natAbs else natDigits i.natAbs

mutual

/-- Serialize a JSON value (compact form, no whitespace); `esc` selects
the HTML-safe string escaping. -/
def dumpsV (esc : Bool) : Json → List Char
  | .null => chs "null"
  | .bool true => chs "true"
  | .bool false => chs "false"
  | .num i => intDumps i
  | .str s => '"' :: escBody esc s ++ ['"']
  | .arr xs => '[' :: dumpsArr esc xs
  | .obj kvs => '{' :: dumpsObj esc kvs

/-- Serialize array elements followed by the closing bracket. -/
def dumpsArr (esc : Bool) : JsonList → List Char
  | .nil => [']']
  | .cons x .nil => dumpsV esc x ++ [']']
  | .cons x (.cons y t) => dumpsV esc x ++ ',' :: dumpsArr esc (.cons y t)

/-- Serialize object members followed by the closing brace. -/
def dumpsObj (esc : Bool) : JsonMembers → List Char
  | .nil => ['}']
  | .cons k v .nil => '"' :: escBody esc k ++ '"' :: ':' :: dumpsV esc v ++ ['}']
  | .cons k v (.cons k2 v2 t) =>
    '"' :: escBody esc k ++ '"' :: ':' :: dumpsV esc v ++ ',' :: dumpsObj esc (.cons k2 v2 t)

end

/-! ## JSON parsing

Standard JSON decoding (spec section 4.1: "Decoding is standard JSON"),
restricted to the grammar the serializers above emit: compact documents
with integer numbers.  The value parser carries explicit fuel (any bound
at least the structural size of the document works; the top-level entry
point supplies the input length). -/

/-- Value of a hexadecimal digit character. -/
def hexVal (c : Char) : Option Nat :=
  if isDigitCh c then some (digitVal c)
  else if 'A' ≤ c ∧ c ≤ 'F' then some (c.toNat - 55)
  else if 'a' ≤ c ∧ c ≤ 'f' then some (c.toNat - 87)
  else none

mutual

/-- Parse a JSON string body up to its closing quote, returning the
decoded characters and the input after the quote. -/
def parseStr : (l : List Char) → Option (List Char × List Char)
  | [] => none
  | c :: r =>
    if c = '"' then some ([], r)
    else if c = '\\' then parseStrEsc r
    else (parseStr r).map (fun p => (c :: p.1, p.2))
  termination_by l => l.length

/-- Parse the character after a backslash inside a JSON string. -/
def parseStrEsc : (l : List Char) → Option (List Char × List Char)
  | [] => none
  | e :: r =>
    if e = '"' then (parseStr r).map (fun p => ('"' :: p.1, p.2))
    else if e = '\\' then (parseStr r).map (fun p => ('\\' :: p.1, p.2))
    else if e = 'n' then (parseStr r).map (fun p => ('\n' :: p.1, p.2))
    else if e = 't' then (parseStr r).map (fun p => ('\t' :: p.1, p.2))
    else if e = 'r' then (parseStr r).map (fun p => ('\r' :: p.1, p.2))
    else if e = 'u' then parseStrHex r
    else none
  termination_by l => l.length

/-- Parse the four hex digits of a `\uXXXX` string escape. -/
def parseStrHex : (l : List Char) → Option (List Char × List Char)
  | h1 :: h2 :: h3 :: h4 :: r =>
    match hexVal h1, hexVal h2, hexVal h3, hexVal h4 with
    | some v1, some v2, some v3, some v4 =>
      (parseStr r).map
        (fun p => (Char.ofNat (v1 * 4096 + v2 * 256 + v3 * 16 + v4) :: p.1, p.2))
    | _, _, _, _ => none
  | _ => none
  termination_by l => l.length

end

/-- Parse a decimal integer at the start of the input; `neg` records a
consumed leading minus sign. -/
def parseNumAt (neg : Bool) (l : List Char) : Option (Json × List Char) :=
  if (splitDigits l).1 = [] then none
  else
    some (.num (if neg then -(digitsVal (splitDigits l).1 : Int)
                else (digitsVal (splitDigits l).1 : Int)),
      (splitDigits l).2)

mutual

/-- Parse one JSON value; fuel bounds the nesting of values. -/
def parseV : Nat → List Char → Option (Json × List Char)
  | 0, _ => none
  | fuel + 1, l =>
    if l.take 4 = chs "null" then some (.null, l.drop 4)
    else if l.take 4 = chs "true" then some (.bool true, l.drop 4)
    else if l.take 5 = chs "false" then some (.bool false, l.drop 5)
    else if l.head? = some '"' then (parseStr l.tail).map (fun p => (.str p.1, p.2))
    else if l.head? = some '[' then
      if l.tail.head? = some ']' then some (.arr .nil, l.tail.tail)
      else (parseArrElems fuel l.tail).map (fun p => (.arr p.1, p.2))
    else if l.head? = some '{' then
      if l.tail.head? = some '}' then some (.obj .nil, l.tail.tail)
      else (parseObjMembers fuel l.tail).map (fun p => (.obj p.1, p.2))
    else if l.head? = some '-' then parseNumAt true l.tail
    else parseNumAt false l

/-- Parse the elements of a non-empty JSON array, consuming the closing
bracket. -/
def parseArrElems : Nat → List Char → Option (JsonList × List Char)
  | 0, _ => none
  | fuel + 1, l =>
    match parseV fuel l with
    | none => none
    | some (j, r) =>
      if r.head? = some ',' then
        (parseArrElems fuel r.tail).map (fun p => (.cons j p.1, p.2))
      else if r.head? = some ']' then some (.cons j .nil, r.tail)
      else none

/-- Parse the members of a non-empty JSON object, consuming the closing
brace. -/
def parseObjMembers : Nat → List Char → Option (JsonMembers × List Char)
  | 0, _ => none
  | fuel + 1, l =>
    if l.head? = some '"' then
      match parseStr l.tail with
      | none => none
      | some (k, r1) =>
        if r1.head? = some ':' then
          match parseV fuel r1.tail with
          | none => none
          | some (v, r3) =>
            if r3.head? = some ',' then
              (parseObjMembers fuel r3.tail).map (fun p => (.cons k v p.1, p.2))
            else if r3.head? = some '}' then some (.cons k v .nil, r3.tail)
            else none
        else none
    else none

end

/-- Parse a complete JSON document: one value consuming the whole input. -/
def jsonParse (l : List Char) : Option Json :=
  match parseV (2 * l.length + 1) l with
  | some (j, []) => some j
  | _ => none

/-! ## JSON round trip -/

/-- No leading decimal digit: the hygiene condition under which a number
parse cannot run past its serialization into the following input. -/
def noLeadDigit (rest : List Char) : Prop := ∀ c ∈ rest.head?, isDigitCh c = false

theorem digit_bounds (c : Char) (h : isDigitCh c = true) : 48 ≤ c.toNat ∧ c.toNat ≤ 57 := by
  simpa [isDigitCh, Bool.and_eq_true, decide_eq_true_eq] using h

theorem parseStr_escBody (esc : Bool) :
    ∀ (s rest : List Char), parseStr (escBody esc s ++ '"' :: rest) = some (s, rest) := by
  intro s
  induction s with
  | nil =>
    intro rest
    rw [show escBody esc [] = [] from rfl, List.nil_append, parseStr, if_pos rfl]
  | cons c s ih =>
    intro rest
    rw [show escBody esc (c :: s) = escChar esc c ++ escBody esc s from by
      simp [escBody], List.append_assoc]
    by_cases h1 : c = '"'
    · subst h1
      rw [show escChar esc '"' = ['\\', '"'] from by rw [escChar, if_pos rfl]]
      rw [List.cons_append, List.cons_append, List.nil_append]
      rw [parseStr, if_neg (by decide), if_pos rfl, parseStrEsc, if_pos rfl, ih]
      rfl
    · by_cases h2 : c = '\\'
      · subst h2
        rw [show escChar esc '\\' = ['\\', '\\'] from by
          rw [escChar, if_neg (by decide), if_pos rfl]]
        rw [List.cons_append, List.cons_append, List.nil_append]
        rw [parseStr, if_neg (by decide), if_pos rfl, parseStrEsc,
          if_neg (by decide), if_pos rfl, ih]
        rfl
      · by_cases h3 : c = '\n'
        · subst h3
          rw [show escChar esc '\n' = ['\\', 'n'] from by
            rw [escChar, if_neg (by decide), if_neg (by decide), if_pos rfl]]
          rw [List.cons_append, List.cons_append, List.nil_append]
          rw [parseStr, if_neg (by decide), if_pos rfl, parseStrEsc,
            if_neg (by decide), if_neg (by decide), if_pos rfl, ih]
          rfl
        · by_cases h4 : c = '\t'
          · subst h4
            rw [show escChar esc '\t' = ['\\', 't'] from by
              rw [escChar, if_neg (by decide), if_neg (by decide), if_neg (by decide),
                if_pos rfl]]
            rw [List.cons_append, List.cons_append, List.nil_append]
            rw [parseStr, if_neg (by decide), if_pos rfl, parseStrEsc,
              if_neg (by decide), if_neg (by decide), if_neg (by decide), if_pos rfl, ih]
            rfl
          · by_cases h5 : c = '\r'
            · subst h5
              rw [show escChar esc '\r' = ['\\', 'r'] from by
                rw [escChar, if_neg (by decide), if_neg (by decide), if_neg (by decide),
                  if_neg (by decide), if_pos rfl]]
              rw [List.cons_append, List.cons_append, List.nil_append]
              rw [parseStr, if_neg (by decide), if_pos rfl, parseStrEsc,
                if_neg (by decide), if_neg (by decide), if_neg (by decide),
                if_neg (by decide), if_pos rfl, ih]
              rfl
            · by_cases h6 : esc = true ∧ c = '<'
              · obtain ⟨hesc, rfl⟩ := h6
                subst hesc
                rw [show escChar true '<' = ['\\', 'u', '0', '0', '3', 'C'] from by
                  rw [escChar, if_neg (by decide), if_neg (by decide), if_neg (by decide),
                    if_neg (by decide), if_neg (by decide), if_pos ⟨rfl, rfl⟩]]
                simp only [List.cons_append, List.nil_append]
                rw [parseStr, if_neg (by decide), if_pos rfl, parseStrEsc,
                  if_neg (by decide), if_neg (by decide), if_neg (by decide),
                  if_neg (by decide), if_neg (by decide), if_pos rfl, parseStrHex]
                rw [ih]
                rfl
              · by_cases h7 : esc = true ∧ c = '>'
                · obtain ⟨hesc, rfl⟩ := h7
                  subst hesc
                  rw [show escChar true '>' = ['\\', 'u', '0', '0', '3', 'E'] from by
                    rw [escChar, if_neg (by decide), if_neg (by decide), if_neg (by decide),
                      if_neg (by decide), if_neg (by decide), if_neg (by decide),
                      if_pos ⟨rfl, rfl⟩]]
                  simp only [List.cons_append, List.nil_append]
                  rw [parseStr, if_neg (by decide), if_pos rfl, parseStrEsc,
                    if_neg (by decide), if_neg (by decide), if_neg (by decide),
                    if_neg (by decide), if_neg (by decide), if_pos rfl, parseStrHex]
                  rw [ih]
                  rfl
                · by_cases h8 : esc = true ∧ c = '&'
                  · obtain ⟨hesc, rfl⟩ := h8
                    subst hesc
                    rw [show escChar true '&' = ['\\', 'u', '0', '0', '2', '6'] from by
                      rw [escChar, if_neg (by decide), if_neg (by decide),
                        if_neg (by decide), if_neg (by decide), if_neg (by decide),
                        if_neg (by decide), if_neg (by decide), if_pos ⟨rfl, rfl⟩]]
                    simp only [List.cons_append, List.nil_append]
                    rw [parseStr, if_neg (by decide), if_pos rfl, parseStrEsc,
                      if_neg (by decide), if_neg (by decide), if_neg (by decide),
                      if_neg (by decide), if_neg (by decide), if_pos rfl, parseStrHex]
                    rw [ih]
                    rfl
                  · rw [show escChar esc c = [c] from by
                      rw [escChar, if_neg h1, if_neg h2, if_neg h3, if_neg h4, if_neg h5,
                        if_neg h6, if_neg h7, if_neg h8]]
                    rw [List.cons_append, List.nil_append, parseStr, if_neg h1, if_neg h2, ih]
                    rfl

theorem sizeV_pos (j : Json) : 1 ≤ sizeV j := by
  cases j <;> simp [sizeV]

theorem sizeL_pos (xs : JsonList) : 1 ≤ sizeL xs := by
  cases xs <;> simp [sizeL] <;> omega

theorem sizeM_pos (kvs : JsonMembers) : 1 ≤ sizeM kvs := by
  cases kvs <;> simp [sizeM] <;> omega

theorem noLeadDigit_nil : noLeadDigit [] := by
  intro a ha
  simp [List.head?] at ha

theorem noLeadDigit_cons (c : Char) (h : isDigitCh c = false) (l : List Char) :
    noLeadDigit (c :: l) := by
  intro a ha
  simp only [List.head?_cons, Option.mem_def, Option.some.injEq] at ha
  subst ha
  exact h

/-- Every serialized JSON value begins with a character other than the
array and object closers. -/
theorem dumpsV_head_ne_close (esc : Bool) (j : Json) :
    ∃ c cs, dumpsV esc j = c :: cs ∧ c ≠ ']' ∧ c ≠ '}' := by
  cases j with
  | null => exact ⟨'n', _, rfl, by decide, by decide⟩
  | bool b => cases b
              · exact ⟨'f', _, rfl, by decide, by decide⟩
              · exact ⟨'t', _, rfl, by decide, by decide⟩
  | num i =>
    rw [show dumpsV esc (.num i) = intDumps i from by rw [dumpsV]]
    rw [intDumps]
    by_cases hneg : i < 0
    · rw [if_pos hneg]
      exact ⟨'-', _, rfl, by decide, by decide⟩
    · rw [if_neg hneg]
      cases hE : natDigits i.natAbs with
      | nil => exact absurd hE (natDigits_ne_nil _)
      | cons d ds =>
        have hd := natDigits_all_digits i.natAbs d (by rw [hE]; simp)
        have hb := digit_bounds d hd
        refine ⟨d, ds, rfl, ?_, ?_⟩
        · intro hEq
          subst hEq
          revert hd
          decide
        · intro hEq
          subst hEq
          revert hd
          decide
  | str s => exact ⟨'"', escBody esc s ++ ['"'], by simp [dumpsV], by decide, by decide⟩
  | arr xs => exact ⟨'[', _, by rw [dumpsV], by decide, by decide⟩
  | obj kvs => exact ⟨'{', _, by rw [dumpsV], by decide, by decide⟩

theorem chs_null : chs "null" = ['n', 'u', 'l', 'l'] := rfl

theorem chs_true : chs "true" = ['t', 'r', 'u', 'e'] := rfl

theorem chs_false : chs "false" = ['f', 'a', 'l', 's', 'e'] := rfl

/-- A serialized value whose first character is a decimal digit falls
through every non-number branch of the value parser. -/
theorem digit_head_conds (d : Char) (hd : isDigitCh d = true) (X : List Char) :
    (d :: X).take 4 ≠ chs "null" ∧ (d :: X).take 4 ≠ chs "true" ∧
    (d :: X).take 5 ≠ chs "false" ∧ (d :: X).head? ≠ some '"' ∧
    (d :: X).head? ≠ some '[' ∧ (d :: X).head? ≠ some '{' ∧ (d :: X).head? ≠ some '-' := by
  refine ⟨?_, ?_, ?_, ?_, ?_, ?_, ?_⟩
  · intro h
    have h1 : d = 'n' := by
      have := congrArg List.head? h
      simpa [chs_null] using this
    rw [h1] at hd
    exact absurd hd (by decide)
  · intro h
    have h1 : d = 't' := by
      have := congrArg List.head? h
      simpa [chs_true] using this
    rw [h1] at hd
    exact absurd hd (by decide)
  · intro h
    have h1 : d = 'f' := by
      have := congrArg List.head? h
      simpa [chs_false] using this
    rw [h1] at hd
    exact absurd hd (by decide)
  · intro h
    have h1 : d = '"' := by simpa using h
    rw [h1] at hd
    exact absurd hd (by decide)
  · intro h
    have h1 : d = '[' := by simpa using h
    rw [h1] at hd
    exact absurd hd (by decide)
  · intro h
    have h1 : d = '{' := by simpa using h
    rw [h1] at hd
    exact absurd hd (by decide)
  · intro h
    have h1 : d = '-' := by simpa using h
    rw [h1] at hd
    exact absurd hd (by decide)

/-- The serializer-parser round trip, proved simultaneously for values,
array element lists and object member lists by strong induction on
structural size. -/
theorem parse_dumps_main (esc : Bool) : ∀ n : Nat,
    (∀ j : Json, sizeV j ≤ n → ∀ fuel rest, sizeV j ≤ fuel → noLeadDigit rest →
      parseV fuel (dumpsV esc j ++ rest) = some (j, rest)) ∧
    (∀ xs : JsonList, xs ≠ .nil → sizeL xs ≤ n → ∀ fuel rest, sizeL xs ≤ fuel →
      parseArrElems fuel (dumpsArr esc xs ++ rest) = some (xs, rest)) ∧
    (∀ kvs : JsonMembers, kvs ≠ .nil → sizeM kvs ≤ n → ∀ fuel rest, sizeM kvs ≤ fuel →
      parseObjMembers fuel (dumpsObj esc kvs ++ rest) = some (kvs, rest)) := by
  intro n
  induction n using Nat.strong_induction_on with
  | _ n ih =>
    refine ⟨?_, ?_, ?_⟩
    · -- values
      intro j hjn fuel rest hfuel hrest
      cases fuel with
      | zero => exact absurd hfuel (by have := sizeV_pos j; omega)
      | succ f =>
        cases j with
        | null =>
          rw [show dumpsV esc Json.null = ['n', 'u', 'l', 'l'] from by rw [dumpsV, chs_null]]
          simp only [List.cons_append, List.nil_append]
          rw [parseV]
          simp [chs_null, chs_true, chs_false]
        | bool b =>
          cases b with
          | true =>
            rw [show dumpsV esc (Json.bool true) = ['t', 'r', 'u', 'e'] from by
              rw [dumpsV, chs_true]]
            simp only [List.cons_append, List.nil_append]
            rw [parseV]
            simp [chs_null, chs_true, chs_false]
          | false =>
            rw [show dumpsV esc (Json.bool false) = ['f', 'a', 'l', 's', 'e'] from by
              rw [dumpsV, chs_false]]
            simp only [List.cons_append, List.nil_append]
            rw [parseV]
            simp [chs_null, chs_true, chs_false]
        | num i =>
          rw [show dumpsV esc (Json.num i) = intDumps i from by rw [dumpsV]]
          rw [intDumps]
          obtain ⟨d, ds, hE⟩ : ∃ d ds, natDigits i.natAbs = d :: ds := by
            cases hE : natDigits i.natAbs with
            | nil => exact absurd hE (natDigits_ne_nil _)
            | cons d ds => exact ⟨d, ds, rfl⟩
          have hd : isDigitCh d = true :=
            natDigits_all_digits i.natAbs d (by rw [hE]; simp)
          have hall : ∀ c ∈ (d :: ds : List Char), isDigitCh c = true := by
            rw [← hE]
            exact natDigits_all_digits i.natAbs
          have hsplit : splitDigits ((d :: ds) ++ rest) = (d :: ds, rest) :=
            splitDigits_spec _ _ hall hrest
          by_cases hneg : i < 0
          · rw [if_pos hneg, hE]
            simp only [List.cons_append]
            rw [parseV]
            simp [chs_null, chs_true, chs_false]
            rw [show (d :: (ds ++ rest)) = (d :: ds) ++ rest from rfl]
            rw [parseNumAt, hsplit]
            simp only [List.cons_ne_nil, if_false]
            rw [show digitsVal (d :: ds) = i.natAbs from by rw [← hE, digitsVal_natDigits]]
            have hi : -(i.natAbs : Int) = i := by omega
            rw [hi]
            simp
          · rw [if_neg hneg, hE]
            simp only [List.cons_append]
            obtain ⟨hc1, hc2, hc3, hc4, hc5, hc6, hc7⟩ := digit_head_conds d hd (ds ++ rest)
            rw [parseV, if_neg hc1, if_neg hc2, if_neg hc3, if_neg hc4, if_neg hc5,
              if_neg hc6, if_neg hc7]
            rw [show (d :: (ds ++ rest)) = (d :: ds) ++ rest from rfl]
            rw [parseNumAt, hsplit]
            simp only [List.cons_ne_nil, if_false]
            rw [show digitsVal (d :: ds) = i.natAbs from by rw [← hE, digitsVal_natDigits]]
            have hi : (i.natAbs : Int) = i := by omega
            rw [hi]
            simp
        | str sv =>
          rw [show dumpsV esc (Json.str sv) = '"' :: (escBody esc sv ++ ['"']) from by
            simp [dumpsV]]
          simp only [List.cons_append, List.append_assoc, List.nil_append]
          rw [parseV]
          simp [chs_null, chs_true, chs_false]
          rw [parseStr_escBody]
        | arr xs =>
          cases xs with
          | nil =>
            rw [show dumpsV esc (Json.arr .nil) = ['[', ']'] from by rw [dumpsV, dumpsArr]]
            simp only [List.cons_append, List.nil_append]
            rw [parseV]
            simp [chs_null, chs_true, chs_false]
          | cons x t =>
            have hfx : sizeL (JsonList.cons x t) ≤ f := by
              simp only [sizeV] at hfuel
              omega
            have hlt : sizeL (JsonList.cons x t) < n := by
              simp only [sizeV] at hjn
              omega
            obtain ⟨c, cs, hx, hcc1, hcc2⟩ := dumpsV_head_ne_close esc x
            obtain ⟨E, hDE⟩ : ∃ E, dumpsArr esc (.cons x t) = c :: E := by
              cases t with
              | nil => exact ⟨cs ++ [']'], by rw [dumpsArr, hx]; rfl⟩
              | cons y t2 =>
                exact ⟨cs ++ ',' :: dumpsArr esc (.cons y t2), by rw [dumpsArr, hx]; rfl⟩
            rw [show dumpsV esc (Json.arr (.cons x t)) = '[' :: dumpsArr esc (.cons x t) from by
              rw [dumpsV]]
            rw [hDE]
            simp only [List.cons_append]
            rw [parseV]
            simp [chs_null, chs_true, chs_false, hcc1]
            rw [show (c :: (E ++ rest)) = dumpsArr esc (.cons x t) ++ rest from by
              rw [hDE]; rfl]
            rw [(ih _ hlt).2.1 (JsonList.cons x t) (fun h => JsonList.noConfusion h)
              le_rfl f rest hfx]
        | obj kvs =>
          cases kvs with
          | nil =>
            rw [show dumpsV esc (Json.obj .nil) = ['{', '}'] from by rw [dumpsV, dumpsObj]]
            simp only [List.cons_append, List.nil_append]
            rw [parseV]
            simp [chs_null, chs_true, chs_false]
          | cons k v t =>
            have hfx : sizeM (JsonMembers.cons k v t) ≤ f := by
              simp only [sizeV] at hfuel
              omega
            have hlt : sizeM (JsonMembers.cons k v t) < n := by
              simp only [sizeV] at hjn
              omega
            obtain ⟨E, hDE⟩ : ∃ E, dumpsObj esc (.cons k v t) = '"' :: E := by
              cases t with
              | nil =>
                exact ⟨escBody esc k ++ '"' :: ':' :: (dumpsV esc v ++ ['}']), by
                  simp [dumpsObj]⟩
              | cons k2 v2 t2 =>
                exact ⟨escBody esc k ++ '"' :: ':' ::
                  (dumpsV esc v ++ ',' :: dumpsObj esc (.cons k2 v2 t2)), by
                  simp [dumpsObj]⟩
            rw [show dumpsV esc (Json.obj (.cons k v t)) =
              '{' :: dumpsObj esc (.cons k v t) from by rw [dumpsV]]
            rw [hDE]
            simp only [List.cons_append]
            rw [parseV]
            simp [chs_null, chs_true, chs_false]
            rw [show (('"' : Char) :: (E ++ rest)) = dumpsObj esc (.cons k v t) ++ rest from by
              rw [hDE]; rfl]
            rw [(ih _ hlt).2.2 (JsonMembers.cons k v t) (fun h => JsonMembers.noConfusion h)
              le_rfl f rest hfx]
    · -- array elements
      intro xs hne hsn fuel rest hsf
      cases xs with
      | nil => exact absurd rfl hne
      | cons x t =>
        cases fuel with
        | zero =>
          exact absurd hsf (by simp [sizeL])
        | succ f =>
          have hfx : sizeV x ≤ f := by
            have := sizeL_pos t
            simp only [sizeL] at hsf
            omega
          have hltx : sizeV x < n := by
            have := sizeL_pos t
            simp only [sizeL] at hsn
            omega
          cases t with
          | nil =>
            rw [show dumpsArr esc (.cons x .nil) = dumpsV esc x ++ [']'] from by
              rw [dumpsArr]]
            rw [List.append_assoc]
            simp only [List.cons_append, List.nil_append]
            rw [parseArrElems]
            rw [(ih _ hltx).1 x le_rfl f (']' :: rest) hfx
              (noLeadDigit_cons ']' (by decide) rest)]
            simp
          | cons y t2 =>
            have hft : sizeL (JsonList.cons y t2) ≤ f := by
              simp only [sizeL] at hsf ⊢
              omega
            have hltt : sizeL (JsonList.cons y t2) < n := by
              simp only [sizeL] at hsn ⊢
              omega
            rw [show dumpsArr esc (.cons x (.cons y t2)) =
              dumpsV esc x ++ ',' :: dumpsArr esc (.cons y t2) from by rw [dumpsArr]]
            rw [List.append_assoc]
            simp only [List.cons_append]
            rw [parseArrElems]
            rw [(ih _ hltx).1 x le_rfl f (',' :: (dumpsArr esc (.cons y t2) ++ rest)) hfx
              (noLeadDigit_cons ',' (by decide) _)]
            simp
            rw [(ih _ hltt).2.1 (JsonList.cons y t2) (fun h => JsonList.noConfusion h)
              le_rfl f rest hft]
    · -- object members
      intro kvs hne hsn fuel rest hsf
      cases kvs with
      | nil => exact absurd rfl hne
      | cons k v t =>
        cases fuel with
        | zero =>
          exact absurd hsf (by simp [sizeM])
        | succ f =>
          have hfv : sizeV v ≤ f := by
            have := sizeM_pos t
            simp only [sizeM] at hsf
            omega
          have hltv : sizeV v < n := by
            have := sizeM_pos t
            simp only [sizeM] at hsn
            omega
          cases t with
          | nil =>
            rw [show dumpsObj esc (.cons k v .nil) =
              '"' :: (escBody esc k ++ '"' :: ':' :: (dumpsV esc v ++ ['}'])) from by
              rw [dumpsObj]; simp]
            simp only [List.cons_append, List.append_assoc, List.nil_append]
            rw [parseObjMembers]
            simp only [List.head?_cons, List.tail_cons]
            rw [if_true, parseStr_escBody]
            simp
            rw [(ih _ hltv).1 v le_rfl f ('}' :: rest) hfv
              (noLeadDigit_cons '}' (by decide) rest)]
            simp
          | cons k2 v2 t2 =>
            have hft : sizeM (JsonMembers.cons k2 v2 t2) ≤ f := by
              simp only [sizeM] at hsf ⊢
              omega
            have hltt : sizeM (JsonMembers.cons k2 v2 t2) < n := by
              simp only [sizeM] at hsn ⊢
              omega
            rw [show dumpsObj esc (.cons k v (.cons k2 v2 t2)) =
              '"' :: (escBody esc k ++ '"' :: ':' ::
                (dumpsV esc v ++ ',' :: dumpsObj esc (.cons k2 v2 t2))) from by
              rw [dumpsObj]; simp]
            simp only [List.cons_append, List.append_assoc, List.nil_append]
            rw [parseObjMembers]
            simp only [List.head?_cons, List.tail_cons]
            rw [if_true, parseStr_escBody]
            simp
            rw [(ih _ hltv).1 v le_rfl f
              (',' :: (dumpsObj esc (.cons k2 v2 t2) ++ rest)) hfv
              (noLeadDigit_cons ',' (by decide) _)]
            simp
            rw [(ih _ hltt).2.2 (JsonMembers.cons k2 v2 t2)
              (fun h => JsonMembers.noConfusion h) le_rfl f rest hft]

/-- The structural size of a document is bounded by twice its serialized
length, so the fuel supplied by `jsonParse` always suffices. -/
theorem size_le_dumps (esc : Bool) : ∀ n : Nat,
    (∀ j : Json, sizeV j ≤ n → sizeV j ≤ 2 * (dumpsV esc j).length) ∧
    (∀ xs : JsonList, sizeL xs ≤ n → sizeL xs ≤ 2 * (dumpsArr esc xs).length) ∧
    (∀ kvs : JsonMembers, sizeM kvs ≤ n → sizeM kvs ≤ 2 * (dumpsObj esc kvs).length) := by
  intro n
  induction n using Nat.strong_induction_on with
  | _ n ih =>
    refine ⟨?_, ?_, ?_⟩
    · intro j hjn
      cases j with
      | null => simp [sizeV, dumpsV, chs_null]
      | bool b => cases b <;> simp [sizeV, dumpsV, chs_true, chs_false]
      | num i =>
        have hlen : 1 ≤ (intDumps i).length := by
          rw [intDumps]
          by_cases hneg : i < 0
          · rw [if_pos hneg]
            simp
          · rw [if_neg hneg]
            cases hE : natDigits i.natAbs with
            | nil => exact absurd hE (natDigits_ne_nil _)
            | cons d ds => simp
        rw [show dumpsV esc (Json.num i) = intDumps i from by rw [dumpsV]]
        simp only [sizeV]
        omega
      | str sv =>
        rw [show dumpsV esc (Json.str sv) = '"' :: (escBody esc sv ++ ['"']) from by
          simp [dumpsV]]
        simp [sizeV]
        omega
      | arr xs =>
        have hxs : sizeL xs < n := by
          simp only [sizeV] at hjn
          have := sizeL_pos xs
          omega
        have hIH := (ih _ hxs).2.1 xs le_rfl
        rw [show dumpsV esc (Json.arr xs) = '[' :: dumpsArr esc xs from by rw [dumpsV]]
        simp only [sizeV, List.length_cons]
        omega
      | obj kvs =>
        have hkvs : sizeM kvs < n := by
          simp only [sizeV] at hjn
          have := sizeM_pos kvs
          omega
        have hIH := (ih _ hkvs).2.2 kvs le_rfl
        rw [show dumpsV esc (Json.obj kvs) = '{' :: dumpsObj esc kvs from by rw [dumpsV]]
        simp only [sizeV, List.length_cons]
        omega
    · intro xs hxn
      cases xs with
      | nil => simp [sizeL, dumpsArr]
      | cons x t =>
        have hx : sizeV x < n := by
          simp only [sizeL] at hxn
          have := sizeL_pos t
          omega
        have hIHx := (ih _ hx).1 x le_rfl
        cases t with
        | nil =>
          rw [show dumpsArr esc (.cons x .nil) = dumpsV esc x ++ [']'] from by rw [dumpsArr]]
          simp only [sizeL, List.length_append, List.length_cons, List.length_nil]
          omega
        | cons y t2 =>
          have ht : sizeL (JsonList.cons y t2) < n := by
            simp only [sizeL] at hxn ⊢
            omega
          have hIHt := (ih _ ht).2.1 (JsonList.cons y t2) le_rfl
          rw [show dumpsArr esc (.cons x (.cons y t2)) =
            dumpsV esc x ++ ',' :: dumpsArr esc (.cons y t2) from by rw [dumpsArr]]
          simp only [sizeL, List.length_append, List.length_cons] at hIHt ⊢
          omega
    · intro kvs hkn
      cases kvs with
      | nil => simp [sizeM, dumpsObj]
      | cons k v t =>
        have hv : sizeV v < n := by
          simp only [sizeM] at hkn
          have := sizeM_pos t
          omega
        have hIHv := (ih _ hv).1 v le_rfl
        cases t with
        | nil =>
          rw [show dumpsObj esc (.cons k v .nil) =
            '"' :: (escBody esc k ++ '"' :: ':' :: (dumpsV esc v ++ ['}'])) from by
            rw [dumpsObj]; simp]
          simp only [sizeM, List.length_cons, List.length_append, List.length_nil]
          omega
        | cons k2 v2 t2 =>
          have ht : sizeM (JsonMembers.cons k2 v2 t2) < n := by
            simp only [sizeM] at hkn ⊢
            omega
          have hIHt := (ih _ ht).2.2 (JsonMembers.cons k2 v2 t2) le_rfl
          rw [show dumpsObj esc (.cons k v (.cons k2 v2 t2)) =
            '"' :: (escBody esc k ++ '"' :: ':' ::
              (dumpsV esc v ++ ',' :: dumpsObj esc (.cons k2 v2 t2))) from by
            rw [dumpsObj]; simp]
          simp only [sizeM, List.length_cons, List.length_append] at hIHt ⊢
          omega

/-- Parsing inverts serialization for complete documents, with either
string escaping mode. -/
theorem jsonParse_dumpsV (esc : Bool) (j : Json) : jsonParse (dumpsV esc j) = some j := by
  have hsize := (size_le_dumps esc (sizeV j)).1 j le_rfl
  have h1 := (parse_dumps_main esc (sizeV j)).1 j le_rfl
    (2 * (dumpsV esc j).length + 1) [] (by omega) noLeadDigit_nil
  rw [List.append_nil] at h1
  rw [jsonParse, h1]

/-! ## HTML safety of the escaped serialization -/

/-- No character of `l` is one of the HTML-special `<`, `>`, `&`. -/
@[reducible] def htmlFree (l : List Char) : Prop :=
  ∀ c ∈ l, c ≠ '<' ∧ c ≠ '>' ∧ c ≠ '&'

theorem htmlFree_nil : htmlFree [] := by
  intro c hc
  simp at hc

theorem htmlFree_append {a b : List Char} (ha : htmlFree a) (hb : htmlFree b) :
    htmlFree (a ++ b) := by
  intro c hc
  rcases List.mem_append.mp hc with h | h
  · exact ha c h
  · exact hb c h

theorem htmlFree_cons {c : Char} {l : List Char}
    (hc : c ≠ '<' ∧ c ≠ '>' ∧ c ≠ '&') (hl : htmlFree l) : htmlFree (c :: l) := by
  intro a ha
  rcases List.mem_cons.mp ha with h | h
  · exact h ▸ hc
  · exact hl a h

theorem digitCh_htmlSafe (c : Char) (h : isDigitCh c = true) :
    c ≠ '<' ∧ c ≠ '>' ∧ c ≠ '&' := by
  refine ⟨?_, ?_, ?_⟩ <;> intro hEq <;> rw [hEq] at h <;> exact absurd h (by decide)

theorem natDigits_htmlFree (n : Nat) : htmlFree (natDigits n) := fun c hc =>
  digitCh_htmlSafe c (natDigits_all_digits n c hc)

theorem intDumps_htmlFree (i : Int) : htmlFree (intDumps i) := by
  rw [intDumps]
  by_cases hneg : i < 0
  · rw [if_pos hneg]
    exact htmlFree_cons (by decide) (natDigits_htmlFree _)
  · rw [if_neg hneg]
    exact natDigits_htmlFree _

/-- With HTML escaping enabled, the escape of any single character emits
none of `<`, `>`, `&` literally. -/
theorem escChar_htmlFree (c : Char) : htmlFree (escChar true c) := by
  by_cases h1 : c = '"'
  · rw [escChar, if_pos h1]
    decide
  · by_cases h2 : c = '\\'
    · rw [escChar, if_neg h1, if_pos h2]
      decide
    · by_cases h3 : c = '\n'
      · rw [escChar, if_neg h1, if_neg h2, if_pos h3]
        decide
      · by_cases h4 : c = '\t'
        · rw [escChar, if_neg h1, if_neg h2, if_neg h3, if_pos h4]
          decide
        · by_cases h5 : c = '\r'
          · rw [escChar, if_neg h1, if_neg h2, if_neg h3, if_neg h4, if_pos h5]
            decide
          · by_cases h6 : c = '<'
            · rw [escChar, if_neg h1, if_neg h2, if_neg h3, if_neg h4, if_neg h5,
                if_pos ⟨rfl, h6⟩]
              decide
            · by_cases h7 : c = '>'
              · rw [escChar, if_neg h1, if_neg h2, if_neg h3, if_neg h4, if_neg h5,
                  if_neg (fun h => h6 h.2), if_pos ⟨rfl, h7⟩]
                decide
              · by_cases h8 : c = '&'
                · rw [escChar, if_neg h1, if_neg h2, if_neg h3, if_neg h4, if_neg h5,
                    if_neg (fun h => h6 h.2), if_neg (fun h => h7 h.2), if_pos ⟨rfl, h8⟩]
                  decide
                · rw [escChar, if_neg h1, if_neg h2, if_neg h3, if_neg h4, if_neg h5,
                    if_neg (fun h => h6 h.2), if_neg (fun h => h7 h.2),
                    if_neg (fun h => h8 h.2)]
                  intro a ha
                  simp only [List.mem_singleton] at ha
                  subst ha
                  exact ⟨h6, h7, h8⟩

theorem escBody_htmlFree (s : List Char) : htmlFree (escBody true s) := by
  intro c hc
  simp only [escBody, List.mem_flatten, List.mem_map] at hc
  obtain ⟨l, ⟨a, _, rfl⟩, hcl⟩ := hc
  exact escChar_htmlFree a c hcl

/-- With HTML escaping enabled, any non-ASCII character passes through the
string escape unchanged. -/
theorem escChar_nonAscii (c : Char) (h : 128 ≤ c.toNat) : escChar true c = [c] := by
  have hne : ∀ x : Char, x.toNat < 128 → c ≠ x := by
    intro x hx hEq
    rw [hEq] at h
    omega
  rw [escChar, if_neg (hne '"' (by decide)), if_neg (hne '\\' (by decide)),
    if_neg (hne '\n' (by decide)), if_neg (hne '\t' (by decide)),
    if_neg (hne '\r' (by decide)), if_neg (fun hc => hne '<' (by decide) hc.2),
    if_neg (fun hc => hne '>' (by decide) hc.2), if_neg (fun hc => hne '&' (by decide) hc.2)]

/-- The HTML-safe serialization of any document contains none of `<`, `>`,
`&`, at any nesting depth. -/
theorem dumps_htmlFree : ∀ n : Nat,
    (∀ j : Json, sizeV j ≤ n → htmlFree (dumpsV true j)) ∧
    (∀ xs : JsonList, sizeL xs ≤ n → htmlFree (dumpsArr true xs)) ∧
    (∀ kvs : JsonMembers, sizeM kvs ≤ n → htmlFree (dumpsObj true kvs)) := by
  intro n
  induction n using Nat.strong_induction_on with
  | _ n ih =>
    refine ⟨?_, ?_, ?_⟩
    · intro j hjn
      cases j with
      | null =>
        rw [show dumpsV true Json.null = ['n', 'u', 'l', 'l'] from by rw [dumpsV, chs_null]]
        decide
      | bool b =>
        cases b with
        | true =>
          rw [show dumpsV true (Json.bool true) = ['t', 'r', 'u', 'e'] from by
            rw [dumpsV, chs_true]]
          decide
        | false =>
          rw [show dumpsV true (Json.bool false) = ['f', 'a', 'l', 's', 'e'] from by
            rw [dumpsV, chs_false]]
          decide
      | num i =>
        rw [show dumpsV true (Json.num i) = intDumps i from by rw [dumpsV]]
        exact intDumps_htmlFree i
      | str sv =>
        rw [show dumpsV true (Json.str sv) = '"' :: (escBody true sv ++ ['"']) from by
          simp [dumpsV]]
        exact htmlFree_cons (by decide)
          (htmlFree_append (escBody_htmlFree sv) (by decide))
      | arr xs =>
        have hxs : sizeL xs < n := by
          simp only [sizeV] at hjn
          have := sizeL_pos xs
          omega
        rw [show dumpsV true (Json.arr xs) = '[' :: dumpsArr true xs from by rw [dumpsV]]
        exact htmlFree_cons (by decide) ((ih _ hxs).2.1 xs le_rfl)
      | obj kvs =>
        have hkvs : sizeM kvs < n := by
          simp only [sizeV] at hjn
          have := sizeM_pos kvs
          omega
        rw [show dumpsV true (Json.obj kvs) = '{' :: dumpsObj true kvs from by rw [dumpsV]]
        exact htmlFree_cons (by decide) ((ih _ hkvs).2.2 kvs le_rfl)
    · intro xs hxn
      cases xs with
      | nil =>
        rw [show dumpsArr true .nil = [']'] from by rw [dumpsArr]]
        decide
      | cons x t =>
        have hx : sizeV x < n := by
          simp only [sizeL] at hxn
          have := sizeL_pos t
          omega
        have hIHx := (ih _ hx).1 x le_rfl
        cases t with
        | nil =>
          rw [show dumpsArr true (.cons x .nil) = dumpsV true x ++ [']'] from by
            rw [dumpsArr]]
          exact htmlFree_append hIHx (by decide)
        | cons y t2 =>
          have ht : sizeL (JsonList.cons y t2) < n := by
            simp only [sizeL] at hxn ⊢
            omega
          rw [show dumpsArr true (.cons x (.cons y t2)) =
            dumpsV true x ++ ',' :: dumpsArr true (.cons y t2) from by rw [dumpsArr]]
          exact htmlFree_append hIHx
            (htmlFree_cons (by decide) ((ih _ ht).2.1 (JsonList.cons y t2) le_rfl))
    · intro kvs hkn
      cases kvs with
      | nil =>
        rw [show dumpsObj true .nil = ['}'] from by rw [dumpsObj]]
        decide
      | cons k v t =>
        have hv : sizeV v < n := by
          simp only [sizeM] at hkn
          have := sizeM_pos t
          omega
        have hIHv := (ih _ hv).1 v le_rfl
        cases t with
        | nil =>
          rw [show dumpsObj true (.cons k v .nil) =
            '"' :: (escBody true k ++ '"' :: ':' :: (dumpsV true v ++ ['}'])) from by
            rw [dumpsObj]; simp]
          exact htmlFree_cons (by decide) (htmlFree_append (escBody_htmlFree k)
            (htmlFree_cons (by decide) (htmlFree_cons (by decide)
              (htmlFree_append hIHv (by decide)))))
        | cons k2 v2 t2 =>
          have ht : sizeM (JsonMembers.cons k2 v2 t2) < n := by
            simp only [sizeM] at hkn ⊢
            omega
          rw [show dumpsObj true (.cons k v (.cons k2 v2 t2)) =
            '"' :: (escBody true k ++ '"' :: ':' ::
              (dumpsV true v ++ ',' :: dumpsObj true (.cons k2 v2 t2))) from by
            rw [dumpsObj]; simp]
          exact htmlFree_cons (by decide) (htmlFree_append (escBody_htmlFree k)
            (htmlFree_cons (by decide) (htmlFree_cons (by decide)
              (htmlFree_append hIHv (htmlFree_cons (by decide)
                ((ih _ ht).2.2 (JsonMembers.cons k2 v2 t2) le_rfl))))))

/-! ## Schemas (spec section 3)

Modelled from the spec: the typed records of the schema layer
(`x402.schemas`).  Strings are character lists; monetary amounts are
decimal strings (spec section 4.2); `extra` is a scheme-specific JSON
object.  Wire keys are camelCase as in the test suite's fixtures. -/

/-- V2 payment requirements: one payment option offered by the server. -/
structure PaymentRequirements where
  scheme : List Char
  network : List Char
  asset : List Char
  amount : List Char
  pay_to : List Char
  max_timeout_seconds : Int
  extra : Option JsonMembers
  deriving DecidableEq

/-- The 402 envelope: offered options plus an optional error message. -/
structure PaymentRequired where
  x402_version : Int
  accepts : List PaymentRequirements
  error : Option (List Char)
  deriving DecidableEq

/-- V2 payment payload: the accepted option echoed back verbatim plus the
scheme-specific inner payload. -/
structure PaymentPayload where
  x402_version : Int
  accepted : PaymentRequirements
  payload : Json
  deriving DecidableEq

/-- V1 payment payload: flat scheme/network, no `accepted` echo. -/
structure PaymentPayloadV1 where
  x402_version : Int
  scheme : List Char
  network : List Char
  payload : Json
  deriving DecidableEq

/-- Settlement result returned in the `PAYMENT-RESPONSE` header. -/
structure SettleResponse where
  success : Bool
  transaction : List Char
  network : List Char
  payer : Option (List Char)
  error_reason : Option (List Char)
  deriving DecidableEq

/-- First value stored under `key`, scanning members in order. -/
def jGet : JsonMembers → List Char → Option Json
  | .nil, _ => none
  | .cons k v t, key => if k = key then some v else jGet t key

/-- An optional JSON object field: absent encodes as `null`. -/
def jsonOfExtra : Option JsonMembers → Json
  | none => .null
  | some kvs => .obj kvs

/-- An optional string field: absent encodes as `null`. -/
def jsonOfOptStr : Option (List Char) → Json
  | none => .null
  | some sv => .str sv

def extraOfJson : Json → Option (Option JsonMembers)
  | .null => some none
  | .obj kvs => some (some kvs)
  | _ => none

def optStrOfJson : Json → Option (Option (List Char))
  | .null => some none
  | .str sv => some (some sv)
  | _ => none

def PaymentRequirements.toJson (r : PaymentRequirements) : Json :=
  .obj (.cons (chs "scheme") (.str r.scheme)
    (.cons (chs "network") (.str r.network)
      (.cons (chs "asset") (.str r.asset)
        (.cons (chs "amount") (.str r.amount)
          (.cons (chs "payTo") (.str r.pay_to)
            (.cons (chs "maxTimeoutSeconds") (.num r.max_timeout_seconds)
              (.cons (chs "extra") (jsonOfExtra r.extra) .nil)))))))

def PaymentRequirements.fromJson : Json → Option PaymentRequirements
  | .obj kvs =>
    match jGet kvs (chs "scheme"), jGet kvs (chs "network"), jGet kvs (chs "asset"),
        jGet kvs (chs "amount"), jGet kvs (chs "payTo"),
        jGet kvs (chs "maxTimeoutSeconds"), jGet kvs (chs "extra") with
    | some (.str sc), some (.str nw), some (.str a), some (.str am), some (.str pt),
        some (.num mts), some ex =>
      (extraOfJson ex).map (fun e => ⟨sc, nw, a, am, pt, mts, e⟩)
    | _, _, _, _, _, _, _ => none
  | _ => none

/-- Array elements of a list of JSON values. -/
def listToJsonList : List Json → JsonList
  | [] => .nil
  | j :: t => .cons j (listToJsonList t)

/-- Parse every array element as `PaymentRequirements`. -/
def parseReqList : JsonList → Option (List PaymentRequirements)
  | .nil => some []
  | .cons j t =>
    match PaymentRequirements.fromJson j, parseReqList t with
    | some r, some rs => some (r :: rs)
    | _, _ => none

def PaymentRequired.toJson (pr : PaymentRequired) : Json :=
  .obj (.cons (chs "x402Version") (.num pr.x402_version)
    (.cons (chs "accepts")
      (.arr (listToJsonList (pr.accepts.map PaymentRequirements.toJson)))
      (.cons (chs "error") (jsonOfOptStr pr.error) .nil)))

def PaymentRequired.fromJson : Json → Option PaymentRequired
  | .obj kvs =>
    match jGet kvs (chs "x402Version"), jGet kvs (chs "accepts"),
        jGet kvs (chs "error") with
    | some (.num ver), some (.arr xs), some e =>
      match parseReqList xs, optStrOfJson e with
      | some rs, some err => some ⟨ver, rs, err⟩
      | _, _ => none
    | _, _, _ => none
  | _ => none

def PaymentPayload.toJson (p : PaymentPayload) : Json :=
  .obj (.cons (chs "x402Version") (.num p.x402_version)
    (.cons (chs "accepted") p.accepted.toJson
      (.cons (chs "payload") p.payload .nil)))

def PaymentPayload.fromJson : Json → Option PaymentPayload
  | .obj kvs =>
    match jGet kvs (chs "x402Version"), jGet kvs (chs "accepted"),
        jGet kvs (chs "payload") with
    | some (.num ver), some acc, some pl =>
      (PaymentRequirements.fromJson acc).map (fun a => ⟨ver, a, pl⟩)
    | _, _, _ => none
  | _ => none

def PaymentPayloadV1.toJson (p : PaymentPayloadV1) : Json :=
  .obj (.cons (chs "x402Version") (.num p.x402_version)
    (.cons (chs "scheme") (.str p.scheme)
      (.cons (chs "network") (.str p.network)
        (.cons (chs "payload") p.payload .nil))))

def PaymentPayloadV1.fromJson : Json → Option PaymentPayloadV1
  | .obj kvs =>
    match jGet kvs (chs "x402Version"), jGet kvs (chs "scheme"),
        jGet kvs (chs "network"), jGet kvs (chs "payload") with
    | some (.num ver), some (.str sc), some (.str nw), some pl => some ⟨ver, sc, nw, pl⟩
    | _, _, _, _ => none
  | _ => none

def SettleResponse.toJson (sr : SettleResponse) : Json :=
  .obj (.cons (chs "success") (.bool sr.success)
    (.cons (chs "transaction") (.str sr.transaction)
      (.cons (chs "network") (.str sr.network)
        (.cons (chs "payer") (jsonOfOptStr sr.payer)
          (.cons (chs "errorReason") (jsonOfOptStr sr.error_reason) .nil)))))

def SettleResponse.fromJson : Json → Option SettleResponse
  | .obj kvs =>
    match jGet kvs (chs "success"), jGet kvs (chs "transaction"),
        jGet kvs (chs "network"), jGet kvs (chs "payer"),
        jGet kvs (chs "errorReason") with
    | some (.bool su), some (.str tx), some (.str nw), some py, some er =>
      match optStrOfJson py, optStrOfJson er with
      | some p, some e => some ⟨su, tx, nw, p, e⟩
      | _, _ => none
    | _, _, _, _, _ => none
  | _ => none

theorem fromJson_toJson_requirements (r : PaymentRequirements) :
    PaymentRequirements.fromJson r.toJson = some r := by
  cases r with
  | mk sc nw a am pt mts ex => cases ex <;> rfl

theorem parseReqList_map (l : List PaymentRequirements) :
    parseReqList (listToJsonList (l.map PaymentRequirements.toJson)) = some l := by
  induction l with
  | nil => rfl
  | cons r t ih =>
    simp only [List.map_cons, listToJsonList, parseReqList,
      fromJson_toJson_requirements, ih]

theorem fromJson_toJson_required (pr : PaymentRequired) :
    PaymentRequired.fromJson pr.toJson = some pr := by
  cases pr with
  | mk ver accepts err =>
    rw [PaymentRequired.toJson, PaymentRequired.fromJson]
    rw [show jGet (.cons (chs "x402Version") (.num ver)
      (.cons (chs "accepts")
        (.arr (listToJsonList (accepts.map PaymentRequirements.toJson)))
        (.cons (chs "error") (jsonOfOptStr err) .nil))) (chs "x402Version") =
          some (.num ver) from rfl]
    rw [show jGet (.cons (chs "x402Version") (.num ver)
      (.cons (chs "accepts")
        (.arr (listToJsonList (accepts.map PaymentRequirements.toJson)))
        (.cons (chs "error") (jsonOfOptStr err) .nil))) (chs "accepts") =
          some (.arr (listToJsonList (accepts.map PaymentRequirements.toJson))) from rfl]
    rw [show jGet (.cons (chs "x402Version") (.num ver)
      (.cons (chs "accepts")
        (.arr (listToJsonList (accepts.map PaymentRequirements.toJson)))
        (.cons (chs "error") (jsonOfOptStr err) .nil))) (chs "error") =
          some (jsonOfOptStr err) from rfl]
    simp only [parseReqList_map]
    cases err <;> rfl

theorem fromJson_toJson_payload (p : PaymentPayload) :
    PaymentPayload.fromJson p.toJson = some p := by
  cases p with
  | mk ver acc pl =>
    rw [PaymentPayload.toJson, PaymentPayload.fromJson]
    rw [show jGet (.cons (chs "x402Version") (.num ver)
      (.cons (chs "accepted") acc.toJson
        (.cons (chs "payload") pl .nil))) (chs "x402Version") = some (.num ver) from rfl]
    rw [show jGet (.cons (chs "x402Version") (.num ver)
      (.cons (chs "accepted") acc.toJson
        (.cons (chs "payload") pl .nil))) (chs "accepted") = some acc.toJson from rfl]
    rw [show jGet (.cons (chs "x402Version") (.num ver)
      (.cons (chs "accepted") acc.toJson
        (.cons (chs "payload") pl .nil))) (chs "payload") = some pl from rfl]
    simp only [fromJson_toJson_requirements, Option.map_some']

theorem fromJson_toJson_payload_v1 (p : PaymentPayloadV1) :
    PaymentPayloadV1.fromJson p.toJson = some p := by
  cases p with
  | mk ver sc nw pl => rfl

theorem fromJson_toJson_settle (sr : SettleResponse) :
    SettleResponse.fromJson sr.toJson = some sr := by
  cases sr with
  | mk su tx nw py er => cases py <;> cases er <;> cases su <;> rfl

/-! ## Header codecs (spec sections 4.1 and 6)

Modelled from the spec: header values are `base64(utf8(json(value)))`
with the standard alphabet; the Python `x402.http.utils` encoders and
decoders are not under `src/`. -/

/-- Base64-encode the UTF-8 bytes of a string. -/
def safe_base64_encode (s : List Char) : List Char := b64Encode (strToUtf8 s)

/-- Decode base64 to bytes and the bytes as UTF-8. -/
def safe_base64_decode (s : List Char) : Option (List Char) :=
  (b64Decode s).bind utf8ToStr

theorem safe_base64_roundtrip (s : List Char) :
    safe_base64_decode (safe_base64_encode s) = some s := by
  rw [safe_base64_encode, safe_base64_decode, b64Decode_b64Encode _ (strToUtf8_lt s)]
  rw [Option.some_bind, utf8ToStr_strToUtf8]

/-- The `base64(utf8(json(v)))` framing of one JSON document. -/
def encodeHeaderJson (j : Json) : List Char := safe_base64_encode (dumpsV false j)

/-- Inverse framing: base64, then UTF-8, then JSON. -/
def decodeHeaderJson (s : List Char) : Option Json :=
  (safe_base64_decode s).bind jsonParse

theorem decodeHeaderJson_encode (j : Json) :
    decodeHeaderJson (encodeHeaderJson j) = some j := by
  rw [encodeHeaderJson, decodeHeaderJson, safe_base64_roundtrip, Option.some_bind,
    jsonParse_dumpsV]

/-- Value carried by the `PAYMENT-SIGNATURE` / `X-PAYMENT` header: a V2 or
V1 payment payload, auto-detected on decode (spec section 4.2). -/
inductive PaymentSignatureValue
  | v2 (p : PaymentPayload)
  | v1 (p : PaymentPayloadV1)
  deriving DecidableEq

def PaymentSignatureValue.toJson : PaymentSignatureValue → Json
  | .v2 p => p.toJson
  | .v1 p => p.toJson

/-- Auto-detect the payload shape: V2 iff an `accepted` member is present,
else V1 by top-level `scheme` and `network` (spec section 4.2). -/
def parsePaymentPayloadJson (j : Json) : Option PaymentSignatureValue :=
  match j with
  | .obj kvs =>
    match jGet kvs (chs "accepted") with
    | some _ => (PaymentPayload.fromJson j).map .v2
    | none => (PaymentPayloadV1.fromJson j).map .v1
  | _ => none

def encode_payment_required_header (pr : PaymentRequired) : List Char :=
  encodeHeaderJson pr.toJson

def decode_payment_required_header (s : List Char) : Option PaymentRequired :=
  (decodeHeaderJson s).bind PaymentRequired.fromJson

def encode_payment_signature_header (p : PaymentSignatureValue) : List Char :=
  encodeHeaderJson p.toJson

def decode_payment_signature_header (s : List Char) : Option PaymentSignatureValue :=
  (decodeHeaderJson s).bind parsePaymentPayloadJson

def encode_payment_response_header (sr : SettleResponse) : List Char :=
  encodeHeaderJson sr.toJson

def decode_payment_response_header (s : List Char) : Option SettleResponse :=
  (decodeHeaderJson s).bind SettleResponse.fromJson

theorem parsePaymentPayloadJson_v2 (p : PaymentPayload) :
    parsePaymentPayloadJson p.toJson = some (.v2 p) := by
  cases p with
  | mk ver acc pl =>
    rw [parsePaymentPayloadJson.eq_def]
    rw [show PaymentPayload.toJson ⟨ver, acc, pl⟩ =
      .obj (.cons (chs "x402Version") (.num ver)
        (.cons (chs "accepted") acc.toJson
          (.cons (chs "payload") pl .nil))) from rfl]
    simp only []
    rw [show jGet (.cons (chs "x402Version") (.num ver)
      (.cons (chs "accepted") acc.toJson
        (.cons (chs "payload") pl .nil))) (chs "accepted") = some acc.toJson from rfl]
    rw [show Json.obj (.cons (chs "x402Version") (.num ver)
      (.cons (chs "accepted") acc.toJson
        (.cons (chs "payload") pl .nil))) =
      PaymentPayload.toJson ⟨ver, acc, pl⟩ from rfl]
    simp only [fromJson_toJson_payload, Option.map_some']

theorem parsePaymentPayloadJson_v1 (p : PaymentPayloadV1) :
    parsePaymentPayloadJson p.toJson = some (.v1 p) := by
  cases p with
  | mk ver sc nw pl =>
    rw [parsePaymentPayloadJson.eq_def]
    rw [show PaymentPayloadV1.toJson ⟨ver, sc, nw, pl⟩ =
      .obj (.cons (chs "x402Version") (.num ver)
        (.cons (chs "scheme") (.str sc)
          (.cons (chs "network") (.str nw)
            (.cons (chs "payload") pl .nil)))) from rfl]
    simp only []
    rw [show jGet (.cons (chs "x402Version") (.num ver)
      (.cons (chs "scheme") (.str sc)
        (.cons (chs "network") (.str nw)
          (.cons (chs "payload") pl .nil)))) (chs "accepted") = none from rfl]
    rw [show Json.obj (.cons (chs "x402Version") (.num ver)
      (.cons (chs "scheme") (.str sc)
        (.cons (chs "network") (.str nw)
          (.cons (chs "payload") pl .nil)))) =
      PaymentPayloadV1.toJson ⟨ver, sc, nw, pl⟩ from rfl]
    simp only [fromJson_toJson_payload_v1, Option.map_some']

/-- C1: decoding the corresponding encoded header recovers every
`PaymentRequired`, every `PaymentPayload` (V2 and V1 variants) and every
`SettleResponse`, the encoding being base64 of the UTF-8 JSON
serialization. -/
theorem c1_codec_roundtrip :
    (∀ pr : PaymentRequired,
      decode_payment_required_header (encode_payment_required_header pr) = some pr) ∧
    (∀ p : PaymentSignatureValue,
      decode_payment_signature_header (encode_payment_signature_header p) = some p) ∧
    (∀ sr : SettleResponse,
      decode_payment_response_header (encode_payment_response_header sr) = some sr) := by
  refine ⟨?_, ?_, ?_⟩
  · intro pr
    rw [encode_payment_required_header, decode_payment_required_header,
      decodeHeaderJson_encode, Option.some_bind, fromJson_toJson_required]
  · intro p
    rw [encode_payment_signature_header, decode_payment_signature_header,
      decodeHeaderJson_encode, Option.some_bind]
    cases p with
    | v2 q => exact parsePaymentPayloadJson_v2 q
    | v1 q => exact parsePaymentPayloadJson_v1 q
  · intro sr
    rw [encode_payment_response_header, decode_payment_response_header,
      decodeHeaderJson_encode, Option.some_bind, fromJson_toJson_settle]

/-! ## Version detection (spec section 4.1)

Modelled from the spec: `detect_payment_required_version` from
`x402.http.utils`, which is not under `src/`.  Headers are an association
list matched case-insensitively; the body, when present, is raw bytes
already decoded to characters. -/

/-- ASCII lowercasing of one character. -/
def lowerCh (c : Char) : Char :=
  if 'A' ≤ c ∧ c ≤ 'Z' then Char.ofNat (c.toNat + 32) else c

/-- ASCII lowercasing of a header name. -/
def lowerStr (s : List Char) : List Char := s.map lowerCh

/-- First header whose name equals `name` case-insensitively. -/
def headerLookup (headers : List (List Char × List Char)) (name : List Char) :
    Option (List Char) :=
  (headers.find? (fun p => lowerStr p.1 = lowerStr name)).map Prod.snd

/-- Version of a received `PaymentRequired`: the `PAYMENT-REQUIRED` header
means V2; else `X-PAYMENT` means V1; else a JSON body's `x402Version`
member; else the detection fails with `missing_payment_required`
(spec section 4.1). -/
def detect_payment_required_version (headers : List (List Char × List Char))
    (body : Option (List Char)) : Except (List Char) Int :=
  if (headerLookup headers (chs "payment-required")).isSome then .ok 2
  else if (headerLookup headers (chs "x-payment")).isSome then .ok 1
  else
    match body with
    | some b =>
      match jsonParse b with
      | some (.obj kvs) =>
        match jGet kvs (chs "x402Version") with
        | some (.num v) => .ok v
        | _ => .error (chs "missing_payment_required")
      | _ => .error (chs "missing_payment_required")
    | none => .error (chs "missing_payment_required")

/-- C2: version detection prefers the `PAYMENT-REQUIRED` header (V2), then
the `X-PAYMENT` header (V1), then the `x402Version` member of a JSON body,
and fails with `missing_payment_required` in every remaining case. -/
theorem c2_detect_version (headers : List (List Char × List Char))
    (body : Option (List Char)) :
    ((headerLookup headers (chs "payment-required")).isSome = true →
      detect_payment_required_version headers body = .ok 2) ∧
    (headerLookup headers (chs "payment-required") = none →
      (headerLookup headers (chs "x-payment")).isSome = true →
      detect_payment_required_version headers body = .ok 1) ∧
    (∀ b kvs v, headerLookup headers (chs "payment-required") = none →
      headerLookup headers (chs "x-payment") = none →
      body = some b → jsonParse b = some (.obj kvs) →
      jGet kvs (chs "x402Version") = some (.num v) →
      detect_payment_required_version headers body = .ok v) ∧
    (headerLookup headers (chs "payment-required") = none →
      headerLookup headers (chs "x-payment") = none →
      (∀ b, body = some b → ∀ kvs, jsonParse b = some (.obj kvs) →
        ∀ v, jGet kvs (chs "x402Version") ≠ some (.num v)) →
      detect_payment_required_version headers body =
        .error (chs "missing_payment_required")) := by
  refine ⟨?_, ?_, ?_, ?_⟩
  · intro h1
    rw [detect_payment_required_version.eq_def, if_pos h1]
  · intro h1 h2
    rw [detect_payment_required_version.eq_def, if_neg (by rw [h1]; simp), if_pos h2]
  · intro b kvs v h1 h2 hb hparse hget
    rw [detect_payment_required_version.eq_def, if_neg (by rw [h1]; simp),
      if_neg (by rw [h2]; simp), hb]
    simp only [hparse, hget]
  · intro h1 h2 hnov
    rw [detect_payment_required_version.eq_def, if_neg (by rw [h1]; simp),
      if_neg (by rw [h2]; simp)]
    cases body with
    | none => rfl
    | some b =>
      cases hparse : jsonParse b with
      | none => simp only [hparse]
      | some j =>
        cases j with
        | obj kvs =>
          cases hget : jGet kvs (chs "x402Version") with
          | none => simp only [hparse, hget]
          | some jv =>
            cases jv with
            | num v => exact absurd hget (hnov b rfl kvs hparse v)
            | null => simp only [hparse, hget]
            | bool bb => simp only [hparse, hget]
            | str sv => simp only [hparse, hget]
            | arr xs => simp only [hparse, hget]
            | obj o => simp only [hparse, hget]
        | null => simp only [hparse]
        | bool bb => simp only [hparse]
        | num nv => simp only [hparse]
        | str sv => simp only [hparse]
        | arr xs => simp only [hparse]

/-- C2 witness: a map with only a lowercase `payment-required` header
detects V2; with only `X-PAYMENT` detects V1; with nothing it fails. -/
theorem c2_detect_version_witness :
    detect_payment_required_version [(chs "payment-required", chs "v")] none = .ok 2 ∧
    detect_payment_required_version [(chs "X-PAYMENT", chs "v")] none = .ok 1 ∧
    detect_payment_required_version [] none =
      .error (chs "missing_payment_required") :=
  ⟨(c2_detect_version [(chs "payment-required", chs "v")] none).1 (by decide),
   (c2_detect_version [(chs "X-PAYMENT", chs "v")] none).2.1 (by decide) (by decide),
   (c2_detect_version [] none).2.2.2 (by decide) (by decide)
     (fun b hb => by cases hb)⟩

/-! ## HTML-safe JSON (spec sections 4.1 and 8.6) -/

/-- Serialize with the HTML-safe string escaping (the paywall context
serializer from `x402.http.utils`). -/
def htmlsafe_json_dumps (j : Json) : List Char := dumpsV true j

/-- C3: the HTML-safe serialization of any value contains no literal `<`,
`>` or `&` anywhere (the three are emitted as escape sequences), every
non-ASCII character passes through the string escape unchanged, and
standard JSON parsing of the output recovers the value. -/
theorem c3_htmlsafe_json (j : Json) :
    (∀ c ∈ htmlsafe_json_dumps j, c ≠ '<' ∧ c ≠ '>' ∧ c ≠ '&') ∧
    (∀ c : Char, 128 ≤ c.toNat → escChar true c = [c]) ∧
    jsonParse (htmlsafe_json_dumps j) = some j :=
  ⟨(dumps_htmlFree (sizeV j)).1 j le_rfl,
   fun c hc => escChar_nonAscii c hc,
   jsonParse_dumpsV true j⟩

/-- C3 witness: at the document `{"a": "<"}` the serialization contains no
literal `<`, a concrete non-ASCII character passes through unchanged, and
parsing recovers the document. -/
theorem c3_htmlsafe_json_witness :
    (('<' ∈ htmlsafe_json_dumps
        (.obj (.cons ['a'] (.str ['<']) .nil)) → False) ∧
      escChar true 'é' = ['é']) ∧
    jsonParse (htmlsafe_json_dumps (.obj (.cons ['a'] (.str ['<']) .nil))) =
      some (.obj (.cons ['a'] (.str ['<']) .nil)) :=
  ⟨⟨fun hmem =>
      ((c3_htmlsafe_json (.obj (.cons ['a'] (.str ['<']) .nil))).1 '<' hmem).1 rfl,
    (c3_htmlsafe_json Json.null).2.1 'é' (by decide)⟩,
   (c3_htmlsafe_json (.obj (.cons ['a'] (.str ['<']) .nil))).2.2⟩

/-! ## Mechanism registry (spec sections 3 and 4.3)

Modelled from the spec: the per-role registry keyed by
`(x402_version, scheme, network_pattern)`; the Python registry code is
not under `src/`.  Handlers are abstracted to opaque identifiers. -/

/-- One registry entry. -/
structure MechanismRecord where
  version : Int
  scheme : List Char
  network_pattern : List Char
  handler : Nat
  deriving DecidableEq

/-- CAIP-2 family of a network identifier: the part before the first
colon. -/
def netFamily (n : List Char) : List Char := n.takeWhile (· ≠ ':')

/-- Is `p` a family wildcard (a single `*` after the family separator,
spec section 4.3)? -/
def isWildcardPat (p : List Char) : Bool := p = netFamily p ++ [':', '*']

/-- Does pattern `p` cover network `net`: exact equality, or family
wildcard covering every network of that family. -/
def patternMatches (p net : List Char) : Bool :=
  if isWildcardPat p then netFamily net = netFamily p else p = net

/-- Registry lookup (spec section 4.3): scan candidates with matching
version and scheme, prefer an exact network match, else a family
wildcard match, first registration winning ties. -/
def findRecord (records : List MechanismRecord) (v : Int) (s net : List Char) :
    Option MechanismRecord :=
  let candidates := records.filter (fun r => r.version == v && r.scheme == s)
  match candidates.find? (fun r => r.network_pattern == net) with
  | some r => some r
  | none => candidates.find? (fun r => patternMatches r.network_pattern net)

theorem takeWhile_append_stop {p : Char → Bool} (ds : List Char) (q : Char)
    (r : List Char) (hds : ∀ c ∈ ds, p c = true) (hq : p q = false) :
    (ds ++ q :: r).takeWhile p = ds := by
  induction ds with
  | nil => simp [List.takeWhile, hq]
  | cons c t ih =>
    simp only [List.cons_append, List.takeWhile]
    rw [hds c (by simp)]
    simp only [List.cons.injEq, true_and]
    exact ih (fun c hc => hds c (by simp [hc]))

theorem netFamily_prefix (fam suffix : List Char) (hfam : ∀ c ∈ fam, c ≠ ':') :
    netFamily (fam ++ ':' :: suffix) = fam := by
  rw [netFamily]
  exact takeWhile_append_stop fam ':' suffix
    (fun c hc => by simpa using hfam c hc) (by simp)

theorem isWildcardPat_family (fam : List Char) (hfam : ∀ c ∈ fam, c ≠ ':') :
    isWildcardPat (fam ++ [':', '*']) = true := by
  rw [isWildcardPat, show (fam ++ [':', '*'] : List Char) = fam ++ ':' :: ['*'] from rfl,
    netFamily_prefix fam ['*'] hfam]
  simp

theorem patternMatches_wildcard (fam suffix : List Char) (hfam : ∀ c ∈ fam, c ≠ ':') :
    patternMatches (fam ++ [':', '*']) (fam ++ ':' :: suffix) = true := by
  rw [patternMatches, if_pos (isWildcardPat_family fam hfam),
    show (fam ++ [':', '*'] : List Char) = fam ++ ':' :: ['*'] from rfl,
    netFamily_prefix fam ['*'] hfam, netFamily_prefix fam suffix hfam]
  simp

theorem patternMatches_wildcard_other_family (fam net : List Char)
    (hfam : ∀ c ∈ fam, c ≠ ':') (hne : netFamily net ≠ fam) :
    patternMatches (fam ++ [':', '*']) net = false := by
  rw [patternMatches, if_pos (isWildcardPat_family fam hfam),
    show (fam ++ [':', '*'] : List Char) = fam ++ ':' :: ['*'] from rfl,
    netFamily_prefix fam ['*'] hfam]
  simpa using hne

theorem patternMatches_exact (p net : List Char) (hp : isWildcardPat p = false) :
    patternMatches p net = true ↔ p = net := by
  rw [patternMatches, if_neg (by simp [hp])]
  simp

/-- C5: a family wildcard pattern matches every network of its family and
none of another family; an exact pattern matches only its own network; and
with both an exact and a wildcard entry registered for the same version
and scheme, lookup selects the exact entry for its network, in either
registration order. -/
theorem c5_registry_lookup (fam suffix net p : List Char)
    (hfam : ∀ c ∈ fam, c ≠ ':') :
    (patternMatches (fam ++ [':', '*']) (fam ++ ':' :: suffix) = true) ∧
    (netFamily net ≠ fam → patternMatches (fam ++ [':', '*']) net = false) ∧
    (isWildcardPat p = false → (patternMatches p net = true ↔ p = net)) ∧
    (∀ (v : Int) (s : List Char) (hW hE : Nat),
      net = fam ++ ':' :: suffix → net ≠ fam ++ [':', '*'] →
      findRecord [⟨v, s, fam ++ [':', '*'], hW⟩, ⟨v, s, net, hE⟩] v s net =
        some ⟨v, s, net, hE⟩ ∧
      findRecord [⟨v, s, net, hE⟩, ⟨v, s, fam ++ [':', '*'], hW⟩] v s net =
        some ⟨v, s, net, hE⟩) := by
  refine ⟨patternMatches_wildcard fam suffix hfam,
    fun hne => patternMatches_wildcard_other_family fam net hfam hne,
    fun hp => patternMatches_exact p net hp, ?_⟩
  intro v s hW hE hnet hne
  have hbne : ((fam ++ [':', '*'] : List Char) == net) = false := by
    simpa using fun h => hne h.symm
  constructor
  · rw [findRecord]
    simp only [List.filter, beq_self_eq_true, Bool.and_self, List.find?, hbne]
  · rw [findRecord]
    simp only [List.filter, beq_self_eq_true, Bool.and_self, List.find?, hbne]

/-- C5 witness: `eip155:*` matches `eip155:8453`, and with both the exact
`eip155:8453` entry and the wildcard registered, lookup picks the exact
entry. -/
theorem c5_registry_lookup_witness :
    patternMatches (chs "eip155" ++ [':', '*']) (chs "eip155" ++ ':' :: chs "8453") = true ∧
    findRecord [⟨2, chs "exact", chs "eip155" ++ [':', '*'], 0⟩,
        ⟨2, chs "exact", chs "eip155:8453", 1⟩] 2 (chs "exact") (chs "eip155:8453") =
      some ⟨2, chs "exact", chs "eip155:8453", 1⟩ :=
  ⟨(c5_registry_lookup (chs "eip155") (chs "8453") (chs "eip155:8453")
      (chs "eip155:8453") (by decide)).1,
   ((c5_registry_lookup (chs "eip155") (chs "8453") (chs "eip155:8453")
      (chs "eip155:8453") (by decide)).2.2.2 2 (chs "exact") 0 1
      (by decide) (by decide)).1⟩

/-! ## Resource server requirement matching (spec section 4.6) -/

/-- Modelled from the spec: `find_matching_requirements` of the resource
server role (not under `src/`): the element of `accepts` equal to the V2
payload's `accepted`, or the first element whose scheme and network match
a V1 payload; `none` otherwise. -/
def find_matching_requirements (accepts : List PaymentRequirements)
    (payload : PaymentSignatureValue) : Option PaymentRequirements :=
  match payload with
  | .v2 p => accepts.find? (fun r => r == p.accepted)
  | .v1 p => accepts.find? (fun r => r.scheme == p.scheme && r.network == p.network)

/-- C6: matching returns the offered element equal to the V2 payload's
`accepted` (and finds it whenever it is offered); for V1 it returns an
offered element agreeing on scheme and network; and it returns `none`
exactly when no element matches. -/
theorem c6_find_matching (accepts : List PaymentRequirements) :
    (∀ p r, find_matching_requirements accepts (.v2 p) = some r →
      r = p.accepted ∧ r ∈ accepts) ∧
    (∀ p, p.accepted ∈ accepts →
      find_matching_requirements accepts (.v2 p) = some p.accepted) ∧
    (∀ p, (∀ r ∈ accepts, r ≠ p.accepted) →
      find_matching_requirements accepts (.v2 p) = none) ∧
    (∀ p r, find_matching_requirements accepts (.v1 p) = some r →
      r ∈ accepts ∧ r.scheme = p.scheme ∧ r.network = p.network) ∧
    (∀ p : PaymentPayloadV1, (∀ r ∈ accepts,
        ¬(r.scheme = p.scheme ∧ r.network = p.network)) →
      find_matching_requirements accepts (.v1 p) = none) := by
  refine ⟨?_, ?_, ?_, ?_, ?_⟩
  · intro p r hfind
    rw [find_matching_requirements] at hfind
    have h1 := List.find?_some hfind
    have h2 := List.mem_of_find?_eq_some hfind
    simp only [beq_iff_eq] at h1
    exact ⟨h1, h2⟩
  · intro p hmem
    rw [find_matching_requirements]
    induction accepts with
    | nil => simp at hmem
    | cons a t ih =>
      rcases List.mem_cons.mp hmem with h | h
      · rw [List.find?]
        rw [show (a == p.accepted) = true from by simp [h]]
        simp only []
        rw [h]
      · rw [List.find?]
        cases hbeq : a == p.accepted with
        | true =>
          simp only [beq_iff_eq] at hbeq
          simp only []
          rw [hbeq]
        | false =>
          simp only []
          exact ih h
  · intro p hno
    rw [find_matching_requirements]
    rw [List.find?_eq_none]
    intro r hr
    simpa using hno r hr
  · intro p r hfind
    rw [find_matching_requirements] at hfind
    have h1 := List.find?_some hfind
    have h2 := List.mem_of_find?_eq_some hfind
    simp only [Bool.and_eq_true, beq_iff_eq] at h1
    exact ⟨h2, h1.1, h1.2⟩
  · intro p hno
    rw [find_matching_requirements]
    rw [List.find?_eq_none]
    intro r hr
    simp only [Bool.and_eq_true, beq_iff_eq]
    exact fun h => hno r hr ⟨h.1, h.2⟩

/-- C6 witness: a singleton offer list matches its own echo and rejects a
payload built for a different recipient. -/
theorem c6_find_matching_witness :
    find_matching_requirements
      [⟨chs "cash", chs "x402:cash", chs "USD", chs "1", chs "Company A", 300, none⟩]
      (.v2 ⟨2, ⟨chs "cash", chs "x402:cash", chs "USD", chs "1", chs "Company A",
        300, none⟩, .null⟩) =
      some ⟨chs "cash", chs "x402:cash", chs "USD", chs "1", chs "Company A", 300, none⟩ ∧
    find_matching_requirements
      [⟨chs "cash", chs "x402:cash", chs "USD", chs "99", chs "Company B", 300, none⟩]
      (.v2 ⟨2, ⟨chs "cash", chs "x402:cash", chs "USD", chs "1", chs "Company A",
        300, none⟩, .null⟩) = none :=
  ⟨(c6_find_matching
      [⟨chs "cash", chs "x402:cash", chs "USD", chs "1", chs "Company A", 300, none⟩]).2.1
      ⟨2, ⟨chs "cash", chs "x402:cash", chs "USD", chs "1", chs "Company A", 300, none⟩,
        .null⟩ (by decide),
   (c6_find_matching
      [⟨chs "cash", chs "x402:cash", chs "USD", chs "99", chs "Company B", 300, none⟩]).2.2.1
      ⟨2, ⟨chs "cash", chs "x402:cash", chs "USD", chs "1", chs "Company A", 300, none⟩,
        .null⟩ (by decide)⟩

/-! ## Client role (spec section 4.4)

Modelled from the spec: the client's `create_payment_payload` algorithm
(the `x402Client` class is not under `src/`).  Policies re-rank the
filtered options; the optional selector chooses one of them; `before`
hooks may abort; the chosen mechanism produces the inner payload.  The
spec's contracts on policies ("each returning a re-ranked list") and the
selector ("to choose one" of the options) appear as hypotheses of the
invariant below. -/

/-- Client configuration: registered `(version, scheme, network_pattern)`
triples, ordering policies, an optional selector, abort-capable
before-payment hooks, and the mechanism's payload constructor. -/
structure ClientConfig where
  registered : List (Int × List Char × List Char)
  policies : List (List PaymentRequirements → List PaymentRequirements)
  selector : Option (List PaymentRequirements → Option PaymentRequirements)
  before_hooks : List (PaymentRequirements → Option (List Char))
  create : PaymentRequirements → Option Json

/-- Is `(v, r.scheme, r.network)` served by one of the client's
registered mechanisms (wildcard patterns included)? -/
def clientSupports (cfg : ClientConfig) (v : Int) (r : PaymentRequirements) : Bool :=
  cfg.registered.any
    (fun t => t.1 == v && t.2.1 == r.scheme && patternMatches t.2.2 r.network)

/-- The client's payload construction (spec section 4.4): filter the offer
to mutually supported options, apply policies in order, select (first
option by default), run before-hooks (first abort wins), invoke the
mechanism, and echo the chosen requirements as `accepted`. -/
def create_payment_payload (cfg : ClientConfig) (pr : PaymentRequired) :
    Except (List Char) PaymentPayload :=
  let supported := pr.accepts.filter (clientSupports cfg pr.x402_version)
  let ranked := cfg.policies.foldl (fun l pol => pol l) supported
  let chosen? := match cfg.selector with
    | some sel => sel ranked
    | none => ranked.head?
  match chosen? with
  | none => .error (chs "no_supported_payment_option")
  | some chosen =>
    match cfg.before_hooks.findSome? (fun h => h chosen) with
    | some reason => .error (chs "aborted" ++ ':' :: reason)
    | none =>
      match cfg.create chosen with
      | some inner => .ok ⟨pr.x402_version, chosen, inner⟩
      | none => .error (chs "payment_creation_failed")

theorem foldl_policies_mem (pols : List (List PaymentRequirements → List PaymentRequirements))
    (hpol : ∀ pol ∈ pols, ∀ l x, x ∈ pol l → x ∈ l) :
    ∀ l x, x ∈ pols.foldl (fun acc pol => pol acc) l → x ∈ l := by
  induction pols with
  | nil => intro l x hx; simpa using hx
  | cons p t ih =>
    intro l x hx
    simp only [List.foldl_cons] at hx
    exact hpol p (by simp) l x
      (ih (fun pol hpt => hpol pol (by simp [hpt])) (p l) x hx)

/-- C4: whenever policies only re-rank and the selector only chooses among
its options, a successful `create_payment_payload` returns a payload whose
`accepted` is, field for field, one of the offered `accepts`; it never
returns a payload whose `accepted` the server did not offer. -/
theorem c4_mutual_support (cfg : ClientConfig) (pr : PaymentRequired)
    (hpol : ∀ pol ∈ cfg.policies, ∀ l x, x ∈ pol l → x ∈ l)
    (hsel : ∀ sel, cfg.selector = some sel → ∀ l r, sel l = some r → r ∈ l) :
    ∀ payload, create_payment_payload cfg pr = .ok payload →
      payload.accepted ∈ pr.accepts := by
  intro payload hok
  rw [create_payment_payload] at hok
  set supported := pr.accepts.filter (clientSupports cfg pr.x402_version) with hsup
  set ranked := cfg.policies.foldl (fun l pol => pol l) supported with hrank
  have hchosen : ∀ chosen,
      (match cfg.selector with
        | some sel => sel ranked
        | none => ranked.head?) = some chosen → chosen ∈ pr.accepts := by
    intro chosen hch
    have hmem : chosen ∈ ranked := by
      cases hselc : cfg.selector with
      | none =>
        rw [hselc] at hch
        exact List.mem_of_mem_head? hch
      | some sel =>
        rw [hselc] at hch
        exact hsel sel hselc ranked chosen hch
    have hmem2 : chosen ∈ supported := foldl_policies_mem cfg.policies hpol supported chosen hmem
    exact List.mem_of_mem_filter (hsup ▸ hmem2)
  cases hch : (match cfg.selector with
      | some sel => sel ranked
      | none => ranked.head?) with
  | none =>
    rw [hch] at hok
    exact absurd hok (by simp)
  | some chosen =>
    rw [hch] at hok
    simp only [] at hok
    cases habort : cfg.before_hooks.findSome? (fun h => h chosen) with
    | some reason =>
      rw [habort] at hok
      exact absurd hok (by simp)
    | none =>
      rw [habort] at hok
      cases hcreate : cfg.create chosen with
      | none =>
        rw [hcreate] at hok
        exact absurd hok (by simp)
      | some inner =>
        rw [hcreate] at hok
        simp only [Except.ok.injEq] at hok
        rw [← hok]
        exact hchosen chosen hch

/-- C4 witness: a single cash option, no policies, no selector, no hooks;
the constructed payload echoes the offered option. -/
theorem c4_mutual_support_witness :
    PaymentPayload.accepted
      ⟨2, ⟨chs "cash", chs "x402:cash", chs "USD", chs "1", chs "Merchant", 300, none⟩,
        .null⟩ ∈
      [⟨chs "cash", chs "x402:cash", chs "USD", chs "1", chs "Merchant", 300, none⟩] :=
  c4_mutual_support
    ⟨[(2, chs "cash", chs "x402:cash")], [], none, [], fun _ => some .null⟩
    ⟨2, [⟨chs "cash", chs "x402:cash", chs "USD", chs "1", chs "Merchant", 300, none⟩],
      none⟩
    (by intro pol hpol; simp at hpol)
    (by intro sel hsel; simp at hsel)
    ⟨2, ⟨chs "cash", chs "x402:cash", chs "USD", chs "1", chs "Merchant", 300, none⟩,
      .null⟩
    rfl

/-! ## Client HTTP transport (spec section 4.7, client side)

Modelled from the spec: the transport wrapper around an inner
send function (the httpx/requests adapters are not under `src/`).  On a
402 it decodes the requirements, creates a payload once, re-sends the
request with the payment header and the retry marker through the inner
transport, and returns whatever comes back; a request already bearing the
retry marker is returned as-is with no payment creation. -/

/-- The request state the wrapper inspects: the retry-marker extension and
the payment header it may attach. -/
structure HttpRequest where
  is_retry : Bool
  payment_header : Option (List Char)
  deriving DecidableEq

/-- The response state the wrapper inspects. -/
structure HttpResponse where
  status : Int
  payment_required_header : Option (List Char)
  deriving DecidableEq

/-- The transport wrapper; the `Nat` component counts payment-payload
creations performed while handling the request. -/
def x402Transport (inner : HttpRequest → HttpResponse)
    (createPayload : PaymentRequired → Option PaymentSignatureValue)
    (req : HttpRequest) : HttpResponse × Nat :=
  let resp := inner req
  if resp.status ≠ 402 then (resp, 0)
  else if req.is_retry then (resp, 0)
  else
    match resp.payment_required_header with
    | none => (resp, 0)
    | some hdr =>
      match decode_payment_required_header hdr with
      | none => (resp, 0)
      | some pr =>
        match createPayload pr with
        | none => (resp, 1)
        | some payload =>
          (inner ⟨true, some (encode_payment_signature_header payload)⟩, 1)

/-- C7: a request already bearing the retry marker that receives a 402 is
returned to the caller untouched with no payment creation; every request
performs at most one payment attempt; and the wrapper's answer is always
either the inner answer to the original request or the inner answer to a
retry-marked request — so a 402 on the retry surfaces to the caller. -/
theorem c7_retry_cap (inner : HttpRequest → HttpResponse)
    (createPayload : PaymentRequired → Option PaymentSignatureValue)
    (req : HttpRequest) :
    (req.is_retry = true → x402Transport inner createPayload req = (inner req, 0)) ∧
    (x402Transport inner createPayload req).2 ≤ 1 ∧
    ((x402Transport inner createPayload req).1 = inner req ∨
      ∃ req2 : HttpRequest, req2.is_retry = true ∧
        (x402Transport inner createPayload req).1 = inner req2) := by
  refine ⟨?_, ?_, ?_⟩
  · intro hretry
    rw [x402Transport]
    by_cases h402 : (inner req).status ≠ 402
    · rw [if_pos h402]
    · rw [if_neg h402, if_pos hretry]
  · rw [x402Transport]
    by_cases h402 : (inner req).status ≠ 402
    · rw [if_pos h402]
      exact Nat.zero_le 1
    · rw [if_neg h402]
      by_cases hretry : req.is_retry
      · rw [if_pos hretry]
        exact Nat.zero_le 1
      · rw [if_neg hretry]
        cases (inner req).payment_required_header with
        | none => simp
        | some hdr =>
          simp only []
          cases decode_payment_required_header hdr with
          | none => simp
          | some pr =>
            simp only []
            cases createPayload pr with
            | none => simp
            | some payload => simp
  · rw [x402Transport]
    by_cases h402 : (inner req).status ≠ 402
    · rw [if_pos h402]
      exact Or.inl rfl
    · rw [if_neg h402]
      by_cases hretry : req.is_retry
      · rw [if_pos hretry]
        exact Or.inl rfl
      · rw [if_neg hretry]
        cases (inner req).payment_required_header with
        | none => exact Or.inl rfl
        | some hdr =>
          simp only []
          cases decode_payment_required_header hdr with
          | none => exact Or.inl rfl
          | some pr =>
            simp only []
            cases createPayload pr with
            | none => exact Or.inl rfl
            | some payload =>
              exact Or.inr ⟨⟨true, some (encode_payment_signature_header payload)⟩,
                rfl, rfl⟩

/-- C7 witness: with an inner transport that always answers 402 without a
requirements header, a retry-marked request comes straight back with zero
payment creations. -/
theorem c7_retry_cap_witness :
    x402Transport (fun _ => ⟨402, none⟩) (fun _ => none) ⟨true, none⟩ =
      ((⟨402, none⟩ : HttpResponse), 0) :=
  (c7_retry_cap (fun _ => ⟨402, none⟩) (fun _ => none) ⟨true, none⟩).1 rfl

/-! ## Verify responses (spec section 3) -/

/-- The facilitator's verification result; `payer` is set only for valid
results. -/
structure VerifyResponse where
  is_valid : Bool
  invalid_reason : Option (List Char)
  payer : Option (List Char)
  deriving DecidableEq

/-- A failed verification with reason `r`. -/
def invalidResp (r : List Char) : VerifyResponse := ⟨false, some r, none⟩

/-! ## EVM exact mechanism verify (spec section 4.8)

Modelled from the spec: the facilitator's `verify` for scheme `exact` on
`eip155:*` (the `ExactEvmFacilitatorScheme` class is not under `src/`).
Chain reads and the clock are an oracle record; the EIP-712/EIP-6492
signature recovery result, the `authorizationState` read and the optional
balance read appear as booleans.  Amounts compare as unbounded decimal
integers (spec sections 4.2 and 8.9). -/

/-- The EIP-3009 authorization carried in the inner payload. -/
structure EvmAuthorization where
  from_addr : List Char
  to_addr : List Char
  value : List Char
  valid_after : Int
  valid_before : Int
  nonce : List Char
  deriving DecidableEq

/-- Oracle for the chain reads and the clock used by EVM verify. -/
structure EvmChainState where
  now : Int
  recovered_ok : Bool
  nonce_used : Bool
  deriving DecidableEq

/-- Does `extra` carry the EIP-712 domain name and version? -/
def eip712DomainOk (extra : Option JsonMembers) : Bool :=
  match extra with
  | none => false
  | some e => (jGet e (chs "name")).isSome && (jGet e (chs "version")).isSome

/-- EVM exact verify (spec section 4.8, facilitator steps 1-6): scheme,
network family, EIP-712 domain, recipient (case-insensitive hex), amount
(unbounded decimal compare), validity window, signature recovery, nonce
state. -/
def exact_evm_verify (st : EvmChainState) (auth : EvmAuthorization)
    (req : PaymentRequirements) : VerifyResponse :=
  if req.scheme ≠ chs "exact" then invalidResp (chs "unsupported_scheme")
  else if netFamily req.network ≠ chs "eip155" then invalidResp (chs "network_mismatch")
  else if eip712DomainOk req.extra = false then invalidResp (chs "missing_eip712_domain")
  else if lowerStr auth.to_addr ≠ lowerStr req.pay_to then
    invalidResp (chs "recipient_mismatch")
  else
    match decStrToNat auth.value, decStrToNat req.amount with
    | some v, some a =>
      if v < a then invalidResp (chs "authorization_value_insufficient")
      else if ¬(auth.valid_after ≤ st.now ∧ st.now ≤ auth.valid_before) then
        invalidResp (chs "expired_authorization")
      else if st.recovered_ok = false then invalidResp (chs "invalid_signature")
      else if st.nonce_used then invalidResp (chs "nonce_used")
      else ⟨true, none, some auth.from_addr⟩
    | _, _ => invalidResp (chs "invalid_payload")

/-- C8: a sufficient authorization value is necessary for EVM verify
success — whenever `value < amount` (as unbounded decimal integers) the
result is invalid, and when every earlier check passes the reason is
`authorization_value_insufficient`. -/
theorem c8_evm_amount (st : EvmChainState) (auth : EvmAuthorization)
    (req : PaymentRequirements) (v a : Nat)
    (hv : decStrToNat auth.value = some v) (ha : decStrToNat req.amount = some a)
    (hlt : v < a) :
    (exact_evm_verify st auth req).is_valid = false ∧
    (req.scheme = chs "exact" → netFamily req.network = chs "eip155" →
      eip712DomainOk req.extra = true →
      lowerStr auth.to_addr = lowerStr req.pay_to →
      exact_evm_verify st auth req =
        invalidResp (chs "authorization_value_insufficient")) := by
  constructor
  · rw [exact_evm_verify]
    by_cases h1 : req.scheme ≠ chs "exact"
    · rw [if_pos h1]; rfl
    · rw [if_neg h1]
      by_cases h2 : netFamily req.network ≠ chs "eip155"
      · rw [if_pos h2]; rfl
      · rw [if_neg h2]
        by_cases h3 : eip712DomainOk req.extra = false
        · rw [if_pos h3]; rfl
        · rw [if_neg h3]
          by_cases h4 : lowerStr auth.to_addr ≠ lowerStr req.pay_to
          · rw [if_pos h4]; rfl
          · rw [if_neg h4]
            simp only [hv, ha]
            rw [if_pos hlt]
            rfl
  · intro h1 h2 h3 h4
    rw [exact_evm_verify, if_neg (by simp [h1]), if_neg (by simp [h2]),
      if_neg (by simp [h3]), if_neg (by simp [h4])]
    simp only [hv, ha]
    rw [if_pos hlt]

/-- C8 witness: value `50000` against required amount `100000` is rejected
as `authorization_value_insufficient` under otherwise-passing checks. -/
theorem c8_evm_amount_witness :
    exact_evm_verify ⟨1000000100, true, false⟩
      ⟨chs "0xAb", chs "0xCd", chs "50000", 1000000000, 1000003600, chs "0x00"⟩
      ⟨chs "exact", chs "eip155:8453", chs "0xToken", chs "100000", chs "0xcd", 3600,
        some (.cons (chs "name") (.str (chs "USD Coin"))
          (.cons (chs "version") (.str (chs "2")) .nil))⟩ =
      invalidResp (chs "authorization_value_insufficient") :=
  (c8_evm_amount ⟨1000000100, true, false⟩
    ⟨chs "0xAb", chs "0xCd", chs "50000", 1000000000, 1000003600, chs "0x00"⟩
    ⟨chs "exact", chs "eip155:8453", chs "0xToken", chs "100000", chs "0xcd", 3600,
      some (.cons (chs "name") (.str (chs "USD Coin"))
        (.cons (chs "version") (.str (chs "2")) .nil))⟩
    50000 100000 (by decide) (by decide) (by decide)).2
    (by decide) (by decide) (by decide) (by decide)

/-! ## SVM exact mechanism verify (spec section 4.9)

Modelled from the spec: the facilitator's `verify` for scheme `exact` on
`solana:*` (the `ExactSvmFacilitatorScheme` class is not under `src/`).
The decoded transaction and the simulation outcome are an oracle; the
fee-payer policy checks run before any transaction decoding, as the test
suite fixes (undecodable transactions still fail with the fee-payer
reasons). -/

/-- The relevant content of a decoded Solana transaction. -/
structure SvmDecodedTx where
  fee_payer : List Char
  single_transfer_checked : Bool
  dest_matches : Bool
  mint : List Char
  amount : Nat
  decimals_ok : Bool
  owner : List Char
  deriving DecidableEq

/-- Oracle for the SVM facilitator: its managed signer addresses, the
decode result of the payload's transaction, and the simulation outcome. -/
structure SvmChainState where
  managed_addresses : List (List Char)
  decoded_tx : Option SvmDecodedTx
  simulate_ok : Bool
  deriving DecidableEq

/-- SVM exact verify (spec section 4.9, facilitator steps 1-5): scheme,
network family, fee payer present in `extra`, fee payer managed by the
facilitator, decode, single TransferChecked, destination/mint/amount/
decimals, simulation. -/
def exact_svm_verify (st : SvmChainState) (req : PaymentRequirements)
    (tx_b64 : Option (List Char)) : VerifyResponse :=
  if req.scheme ≠ chs "exact" then invalidResp (chs "unsupported_scheme")
  else if netFamily req.network ≠ chs "solana" then invalidResp (chs "network_mismatch")
  else
    match req.extra with
    | none => invalidResp (chs "invalid_exact_svm_payload_missing_fee_payer")
    | some e =>
      match jGet e (chs "feePayer") with
      | some (.str fp) =>
        if fp ∉ st.managed_addresses then
          invalidResp (chs "fee_payer_not_managed_by_facilitator")
        else
          match tx_b64 with
          | none => invalidResp (chs "invalid_exact_svm_payload")
          | some _ =>
            match st.decoded_tx with
            | none => invalidResp (chs "invalid_exact_svm_payload")
            | some tx =>
              if tx.single_transfer_checked = false then
                invalidResp (chs "invalid_exact_svm_payload")
              else if tx.fee_payer ∉ st.managed_addresses then
                invalidResp (chs "fee_payer_not_managed_by_facilitator")
              else if tx.dest_matches = false then
                invalidResp (chs "invalid_exact_svm_payload")
              else if tx.mint ≠ req.asset then
                invalidResp (chs "invalid_exact_svm_payload")
              else
                match decStrToNat req.amount with
                | none => invalidResp (chs "invalid_payload")
                | some a =>
                  if tx.amount < a then
                    invalidResp (chs "authorization_value_insufficient")
                  else if tx.decimals_ok = false then
                    invalidResp (chs "invalid_exact_svm_payload")
                  else if st.simulate_ok = false then
                    invalidResp (chs "simulation_failed")
                  else ⟨true, none, some tx.owner⟩
      | _ => invalidResp (chs "invalid_exact_svm_payload_missing_fee_payer")

/-- C9: for an `exact` offer on a Solana network, a missing fee payer in
`requirements.extra` fails verify with
`invalid_exact_svm_payload_missing_fee_payer`, and a fee payer that the
facilitator does not manage fails with
`fee_payer_not_managed_by_facilitator`, regardless of the rest of the
payload. -/
theorem c9_svm_fee_payer (st : SvmChainState) (req : PaymentRequirements)
    (tx_b64 : Option (List Char))
    (hscheme : req.scheme = chs "exact")
    (hnet : netFamily req.network = chs "solana") :
    ((req.extra = none ∨
        ∃ e, req.extra = some e ∧ jGet e (chs "feePayer") = none) →
      exact_svm_verify st req tx_b64 =
        invalidResp (chs "invalid_exact_svm_payload_missing_fee_payer")) ∧
    (∀ e fp, req.extra = some e → jGet e (chs "feePayer") = some (.str fp) →
      fp ∉ st.managed_addresses →
      exact_svm_verify st req tx_b64 =
        invalidResp (chs "fee_payer_not_managed_by_facilitator")) := by
  constructor
  · intro hmissing
    rw [exact_svm_verify.eq_def, if_neg (by simp [hscheme]), if_neg (by simp [hnet])]
    rcases hmissing with h | ⟨e, he, hfp⟩
    · rw [h]
    · rw [he]
      simp only [hfp]
  · intro e fp he hfp hnm
    rw [exact_svm_verify.eq_def, if_neg (by simp [hscheme]), if_neg (by simp [hnet]), he]
    simp only [hfp]
    rw [if_pos hnm]

/-- C9 witness: with empty `extra` the verdict is the missing-fee-payer
reason; with an unmanaged fee payer it is the not-managed reason, both
with an undecodable transaction payload. -/
theorem c9_svm_fee_payer_witness :
    exact_svm_verify ⟨[chs "Managed1"], none, true⟩
      ⟨chs "exact", chs "solana:EtWT", chs "USDC4z", chs "100000", chs "PayTo1", 3600,
        some .nil⟩ (some (chs "base64transaction==")) =
      invalidResp (chs "invalid_exact_svm_payload_missing_fee_payer") ∧
    exact_svm_verify ⟨[chs "Managed1"], none, true⟩
      ⟨chs "exact", chs "solana:EtWT", chs "USDC4z", chs "100000", chs "PayTo1", 3600,
        some (.cons (chs "feePayer") (.str (chs "Unmanaged1")) .nil)⟩
      (some (chs "base64transaction==")) =
      invalidResp (chs "fee_payer_not_managed_by_facilitator") :=
  ⟨(c9_svm_fee_payer ⟨[chs "Managed1"], none, true⟩
      ⟨chs "exact", chs "solana:EtWT", chs "USDC4z", chs "100000", chs "PayTo1", 3600,
        some .nil⟩ (some (chs "base64transaction==")) (by decide) (by decide)).1
      (Or.inr ⟨.nil, rfl, by decide⟩),
   (c9_svm_fee_payer ⟨[chs "Managed1"], none, true⟩
      ⟨chs "exact", chs "solana:EtWT", chs "USDC4z", chs "100000", chs "PayTo1", 3600,
        some (.cons (chs "feePayer") (.str (chs "Unmanaged1")) .nil)⟩
      (some (chs "base64transaction==")) (by decide) (by decide)).2
      (.cons (chs "feePayer") (.str (chs "Unmanaged1")) .nil) (chs "Unmanaged1")
      rfl (by decide) (by decide)⟩

/-! ## Resource server initialization guard (spec section 4.6; unit tests
`TestServerErrorHandling` and `TestServerInitialization`)

Modelled from the spec and tests: an `x402ResourceServer` must be
initialized before `verify_payment`, `settle_payment` or
`build_payment_requirements`; before `initialize()` these raise a
`RuntimeError` whose message contains "not initialized" instead of
returning a failure response; after `initialize()` they dispatch to the
facilitator normally.  Raising is modelled as the `Except.error`
branch, distinct from any `VerifyResponse`/`SettleResponse` value. -/

/-- The resource server: the initialization flag plus the dispatch
behaviour the initialized server delegates to. -/
structure ResourceServer where
  initialized : Bool
  verify_dispatch : PaymentPayload → PaymentRequirements → VerifyResponse
  settle_dispatch : PaymentPayload → PaymentRequirements → SettleResponse
  build_dispatch : Json → List PaymentRequirements

/-- The raised message. -/
def notInitializedMsg : List Char :=
  chs "Server not initialized. Call initialize() first."

def ResourceServer.initialize (s : ResourceServer) : ResourceServer :=
  { s with initialized := true }

def verify_payment (s : ResourceServer) (p : PaymentPayload)
    (r : PaymentRequirements) : Except (List Char) VerifyResponse :=
  if s.initialized then .ok (s.verify_dispatch p r) else .error notInitializedMsg

def settle_payment (s : ResourceServer) (p : PaymentPayload)
    (r : PaymentRequirements) : Except (List Char) SettleResponse :=
  if s.initialized then .ok (s.settle_dispatch p r) else .error notInitializedMsg

def build_payment_requirements (s : ResourceServer) (cfg : Json) :
    Except (List Char) (List PaymentRequirements) :=
  if s.initialized then .ok (s.build_dispatch cfg) else .error notInitializedMsg

/-- C10: on an uninitialized server all three operations raise (the error
branch, not a failure response) with a message containing
"not initialized"; after `initialize()` each dispatches normally. -/
theorem c10_initialization_guard (s : ResourceServer) (p : PaymentPayload)
    (r : PaymentRequirements) (cfg : Json) (hinit : s.initialized = false) :
    verify_payment s p r = .error notInitializedMsg ∧
    settle_payment s p r = .error notInitializedMsg ∧
    build_payment_requirements s cfg = .error notInitializedMsg ∧
    List.IsInfix (chs "not initialized") notInitializedMsg ∧
    verify_payment s.initialize p r = .ok (s.verify_dispatch p r) ∧
    settle_payment s.initialize p r = .ok (s.settle_dispatch p r) ∧
    build_payment_requirements s.initialize cfg = .ok (s.build_dispatch cfg) := by
  refine ⟨?_, ?_, ?_, by decide, ?_, ?_, ?_⟩
  · rw [verify_payment, if_neg (by simp [hinit])]
  · rw [settle_payment, if_neg (by simp [hinit])]
  · rw [build_payment_requirements, if_neg (by simp [hinit])]
  · rw [verify_payment]
    rfl
  · rw [settle_payment]
    rfl
  · rw [build_payment_requirements]
    rfl

/-- C10 witness: a concrete uninitialized server raises on verify and
dispatches after initialization. -/
theorem c10_initialization_guard_witness :
    verify_payment
      ⟨false, fun _ _ => ⟨true, none, some (chs "~John")⟩,
        fun _ _ => ⟨true, chs "tx", chs "x402:cash", none, none⟩, fun _ => []⟩
      ⟨2, ⟨chs "cash", chs "x402:cash", chs "USD", chs "1", chs "M", 300, none⟩, .null⟩
      ⟨chs "cash", chs "x402:cash", chs "USD", chs "1", chs "M", 300, none⟩ =
      .error notInitializedMsg :=
  (c10_initialization_guard
    ⟨false, fun _ _ => ⟨true, none, some (chs "~John")⟩,
      fun _ _ => ⟨true, chs "tx", chs "x402:cash", none, none⟩, fun _ => []⟩
    ⟨2, ⟨chs "cash", chs "x402:cash", chs "USD", chs "1", chs "M", 300, none⟩, .null⟩
    ⟨chs "cash", chs "x402:cash", chs "USD", chs "1", chs "M", 300, none⟩
    .null rfl).1

end X402
